/-
  Verification of DevGram core algorithms against their specification.

  The definitions below are shallow embeddings of the Python sources:
    - src/bot/tmux_bridge.py   (overlap diff, keystroke injection, idle-wait loop)
    - src/bot/shell_session.py (persistent shell session: cwd clamping, export/unset,
                                source, run dispatch)
    - src/bot/bot.py           (session record round-trip)

  Strings are modelled as `List Char`; machine integers as `Int`/`Nat`;
  the filesystem, the process working directory and subprocess outcomes are
  explicit inputs (the code only observes them through library calls);
  Python exceptions escaping a function are modelled with `Except`.
-/
import Mathlib

namespace DevGram

/-! ## Overlap diff (src/bot/tmux_bridge.py, `_increment`) -/

/-- Python `prev[-k:]` for `1 ≤ k ≤ len prev`: the last `k` characters of `prev`
(for `k = 0` this model yields `[]`, a value the code's loop never uses). -/
def lastChars (s : List Char) (k : Nat) : List Char :=
  s.drop (s.length - k)

/-- The scan `for k in range(max_overlap, 0, -1): if prev[-k:] == new[:k]: start = k; break`
of `_increment`: returns the first (largest) `k` in `m, m-1, ..., 1` whose
`k`-suffix of `prev` equals the `k`-prefix of `new`, and `0` when none matches. -/
def overlapScan (prev new : List Char) : Nat → Nat
  | 0 => 0
  | k + 1 => if lastChars prev (k + 1) = new.take (k + 1) then k + 1 else overlapScan prev new k

/-- `_increment(prev, new)`: `new` with its leading maximal-overlap span removed;
`new` unchanged when `prev` is empty. -/
def increment (prev new : List Char) : List Char :=
  if prev = [] then new
  else new.drop (overlapScan prev new (min prev.length new.length))

/-- The overlap predicate of the spec: the last `k` characters of `prev`
equal the first `k` characters of `new`. -/
def overlapAt (prev new : List Char) (k : Nat) : Prop :=
  lastChars prev k = new.take k

instance (prev new : List Char) : DecidablePred (overlapAt prev new) := fun _ =>
  inferInstanceAs (Decidable (_ = _))

theorem overlapAt_zero (prev new : List Char) : overlapAt prev new 0 := by
  simp [overlapAt, lastChars]

/-- The code's downward scan computes exactly `Nat.findGreatest` of the overlap
predicate. -/
theorem overlapScan_eq_findGreatest (prev new : List Char) (m : Nat) :
    overlapScan prev new m = Nat.findGreatest (fun k => overlapAt prev new k) m := by
  induction m with
  | zero => simp [overlapScan]
  | succ k ih =>
      rw [overlapScan, Nat.findGreatest_succ]
      by_cases h : overlapAt prev new (k + 1)
      · simp [overlapAt] at h
        simp [h, overlapAt]
      · simp [overlapAt] at h
        simp [h, ih, overlapAt]

/-- The `k` the code removes from the front of `new`: the largest valid overlap. -/
def maxOverlap (prev new : List Char) : Nat :=
  Nat.findGreatest (fun k => overlapAt prev new k) (min prev.length new.length)

theorem increment_eq_drop_maxOverlap (prev new : List Char) :
    increment prev new = new.drop (maxOverlap prev new) := by
  unfold increment maxOverlap
  by_cases h : prev = []
  · subst h
    simp [Nat.findGreatest]
  · rw [if_neg h, overlapScan_eq_findGreatest]

theorem maxOverlap_le (prev new : List Char) :
    maxOverlap prev new ≤ min prev.length new.length :=
  Nat.findGreatest_le _

theorem overlapAt_maxOverlap (prev new : List Char) :
    overlapAt prev new (maxOverlap prev new) :=
  Nat.findGreatest_spec (Nat.zero_le _) (overlapAt_zero prev new)

theorem maxOverlap_is_greatest (prev new : List Char) (j : Nat)
    (hj : j ≤ min prev.length new.length) (h : overlapAt prev new j) :
    j ≤ maxOverlap prev new :=
  Nat.le_findGreatest hj h

/-- **C1.** Overlap Diff contract: `_increment(prev, new)` equals `new` with its
first `k` characters removed, where `k` is the largest integer with
`0 ≤ k ≤ min (len prev) (len new)` such that the last `k` characters of `prev`
equal the first `k` characters of `new`; in particular `_increment("", new) = new`. -/
theorem increment_spec (prev new : List Char) :
    maxOverlap prev new ≤ min prev.length new.length ∧
    overlapAt prev new (maxOverlap prev new) ∧
    (∀ j, j ≤ min prev.length new.length → overlapAt prev new j → j ≤ maxOverlap prev new) ∧
    increment prev new = new.drop (maxOverlap prev new) ∧
    (prev = [] → increment prev new = new) := by
  refine ⟨maxOverlap_le prev new, overlapAt_maxOverlap prev new,
    maxOverlap_is_greatest prev new, increment_eq_drop_maxOverlap prev new, ?_⟩
  intro h
  simp [increment, h]

theorem increment_spec_witness :
    increment "ab".data "bc".data
      = List.drop (maxOverlap "ab".data "bc".data) "bc".data :=
  (increment_spec "ab".data "bc".data).2.2.2.1

/-! ## Paths and filesystem (src/bot/shell_session.py)

A `pathlib.Path` is modelled as its list of components after the root
(`Path("/a/b")` ↦ `["a", "b"]`, `Path("/")` ↦ `[]`); all session paths in the
code are absolute.  `Path.resolve()` is modelled lexically (the model has no
symlinks): `".."` pops a component (staying at the root when there is none).
The filesystem is an explicit input: the sets of resolved paths that exist as
directories and as non-directory entries. -/

/-- A path as its component list after the leading `/`. -/
abbrev PyPath := List (List Char)

/-- Python `Path(s)` for an absolute or relative string `s`: split on `/`,
dropping empty segments and `"."` segments (as `pathlib` does on construction). -/
def parsePath (s : List Char) : PyPath :=
  ((s.splitOn '/').filter (· ≠ [])).filter (· ≠ ['.'])

/-- Python `str(p)` for an absolute path: `/` followed by the components
joined with `/`. -/
def renderPath (p : PyPath) : List Char :=
  '/' :: List.intercalate ['/'] p

/-- Python `Path.resolve()`, lexical and symlink-free: `..` pops the last
component (no-op at the root); other components are appended. -/
def resolvePath (p : PyPath) : PyPath :=
  p.foldl (fun acc comp => if comp = ['.', '.'] then acc.dropLast else acc ++ [comp]) []

/-- Does the string start with `/` (Python `target.startswith("/")`)? -/
def startsWithSlash (t : List Char) : Bool :=
  match t with
  | '/' :: _ => true
  | _ => false

/-- A component of a fully resolved real path: nonempty, no `/`, not `.` or `..`.
`Settings.workspace_dir` is built with `Path(...).resolve()`, so its model
satisfies `validPath`. -/
def validComp (c : List Char) : Bool :=
  decide (c ≠ [] ∧ '/' ∉ c ∧ c ≠ ['.'] ∧ c ≠ ['.', '.'])

def validPath (p : PyPath) : Bool :=
  p.all validComp

/-- The filesystem as the code observes it: resolved paths of existing
directories and of existing non-directory entries. -/
structure FS where
  dirs : List PyPath
  files : List PyPath
deriving Repr

/-- `Path.exists()` (the OS resolves the path before checking). -/
def FS.existsPath (fs : FS) (p : PyPath) : Bool :=
  fs.dirs.contains (resolvePath p) || fs.files.contains (resolvePath p)

/-- `Path.is_dir()`. -/
def FS.isDir (fs : FS) (p : PyPath) : Bool :=
  fs.dirs.contains (resolvePath p)

/-- `_is_within(child, parent)`: `child.resolve().relative_to(parent.resolve())`
succeeds exactly when `parent.resolve()`'s components are a prefix of
`child.resolve()`'s. -/
def is_within (child parent : PyPath) : Bool :=
  (resolvePath parent).isPrefixOf (resolvePath child)

/-- `_clamp_cwd(path, workspace_root)`. -/
def clamp_cwd (path workspace_root : PyPath) : PyPath :=
  let p := resolvePath path
  if is_within p workspace_root then p else workspace_root

/-! ### Path lemmas -/

theorem resolvePath_foldl (p : PyPath) (acc : PyPath) (h : ∀ c ∈ p, c ≠ ['.', '.']) :
    p.foldl (fun acc comp => if comp = ['.', '.'] then acc.dropLast else acc ++ [comp]) acc
      = acc ++ p := by
  induction p generalizing acc with
  | nil => simp
  | cons c rest ih =>
      have hc : c ≠ ['.', '.'] := h c (List.mem_cons_self c rest)
      simp only [List.foldl_cons, if_neg hc]
      rw [ih _ (fun d hd => h d (List.mem_cons_of_mem c hd))]
      simp

theorem resolvePath_of_no_dotdot (p : PyPath) (h : ∀ c ∈ p, c ≠ ['.', '.']) :
    resolvePath p = p := by
  have := resolvePath_foldl p [] h
  simpa [resolvePath] using this

theorem validComp_spec (c : List Char) (h : validComp c = true) :
    c ≠ [] ∧ '/' ∉ c ∧ c ≠ ['.'] ∧ c ≠ ['.', '.'] :=
  of_decide_eq_true h

theorem resolvePath_of_valid (p : PyPath) (h : validPath p = true) :
    resolvePath p = p :=
  resolvePath_of_no_dotdot p
    (fun c hc => (validComp_spec c (List.all_eq_true.mp h c hc)).2.2.2)

theorem parsePath_renderPath (p : PyPath) (h : validPath p = true) :
    parsePath (renderPath p) = p := by
  have hcomp : ∀ c ∈ p, validComp c = true := List.all_eq_true.mp h
  by_cases hp : p = []
  · subst hp; rfl
  · have hx : ∀ l ∈ p, '/' ∉ l := fun l hl => (validComp_spec l (hcomp l hl)).2.1
    have hsplit : (('/' :: List.intercalate ['/'] p).splitOn '/')
        = [] :: (List.intercalate ['/'] p).splitOn '/' := by
      simp [List.splitOn]
    unfold parsePath renderPath
    rw [hsplit, List.splitOn_intercalate p '/' hx hp]
    have h1 : List.filter (fun x => !decide (x = [])) p = p :=
      List.filter_eq_self.mpr (fun l hl => by simp [(validComp_spec l (hcomp l hl)).1])
    have h2 : List.filter (fun x => !decide (x = ['.'])) p = p :=
      List.filter_eq_self.mpr (fun l hl => by simp [(validComp_spec l (hcomp l hl)).2.2.1])
    simp [List.filter_cons, h1, h2]

theorem resolvePath_no_dotdot (p : PyPath) : ∀ c ∈ resolvePath p, c ≠ ['.', '.'] := by
  suffices h : ∀ acc : PyPath, (∀ c ∈ acc, c ≠ ['.', '.']) →
      ∀ c ∈ p.foldl (fun acc comp => if comp = ['.', '.'] then acc.dropLast else acc ++ [comp]) acc,
        c ≠ ['.', '.'] by
    exact h [] (by simp)
  induction p with
  | nil => intro acc hacc; simpa using hacc
  | cons comp rest ih =>
      intro acc hacc
      simp only [List.foldl_cons]
      by_cases hc : comp = ['.', '.']
      · rw [if_pos hc]
        exact ih _ (fun c hcmem => hacc c ((List.dropLast_sublist acc).mem hcmem))
      · rw [if_neg hc]
        refine ih _ (fun c hcmem => ?_)
        rcases List.mem_append.mp hcmem with h | h
        · exact hacc c h
        · simpa using (List.mem_singleton.mp h) ▸ hc

theorem resolvePath_idem (p : PyPath) : resolvePath (resolvePath p) = resolvePath p :=
  resolvePath_of_no_dotdot _ (resolvePath_no_dotdot p)

theorem is_within_refl (p : PyPath) : is_within p p = true := by
  simp [is_within, List.isPrefixOf_iff_prefix]

/-- The clamped directory is always inside the workspace root. -/
theorem clamp_cwd_within (path root : PyPath) : is_within (clamp_cwd path root) root = true := by
  unfold clamp_cwd
  by_cases h : is_within (resolvePath path) root = true
  · simp [h]
  · simp only [Bool.not_eq_true] at h
    simp [h, is_within_refl]

/-! ## Shell session state (src/bot/shell_session.py) -/

/-- Python `dict[str, str]` as an insertion-ordered association list. -/
abbrev Env := List (List Char × List Char)

/-- `self.env[key] = value`: update in place when present, else append. -/
def envSet (env : Env) (k v : List Char) : Env :=
  if env.any (fun kv => kv.1 = k) then
    env.map (fun kv => if kv.1 = k then (k, v) else kv)
  else env ++ [(k, v)]

/-- `self.env.pop(key, None)`. -/
def envUnset (env : Env) (k : List Char) : Env :=
  env.filter (fun kv => kv.1 ≠ k)

structure ShellSession where
  workspace_root : PyPath
  cwd : PyPath
  env : Env
deriving DecidableEq, Repr

/-- The `target_path` of `change_dir`: `(self.cwd / target).resolve()` for a
relative target, `Path(target)` for an absolute one. -/
def cdTargetPath (sess : ShellSession) (target : List Char) : PyPath :=
  if startsWithSlash target then parsePath target
  else resolvePath (sess.cwd ++ parsePath target)

/-- `ShellSession.change_dir(target)`. -/
def change_dir (fs : FS) (sess : ShellSession) (target : List Char) :
    ShellSession × Bool × List Char :=
  let target_path := cdTargetPath sess target
  let new_cwd := clamp_cwd target_path sess.workspace_root
  if fs.existsPath new_cwd && fs.isDir new_cwd then
    ({ sess with cwd := new_cwd }, true, renderPath new_cwd)
  else
    (sess, false, "No such directory: ".data ++ target)

/-! ## shlex.split (POSIX mode, whitespace_split, comments off)

`shlex.split` is what `_apply_export_or_unset` uses to tokenize the text after
`export `; it raises `ValueError` on an unclosed quote or a trailing escape,
modelled with `Except`. -/

def shlexWs (c : Char) : Bool :=
  c = ' ' || c = '\t' || c = '\r' || c = '\n'

inductive LexState
  | word
  | single
  | double
deriving DecidableEq, Repr

/-- The `shlex` state machine: `st` the quoting state, `started` whether a token
is in progress (Python's nonempty `token` or `quoted` flag), `acc` the current
token reversed, `toks` the finished tokens reversed. -/
def shlexSplitAux (st : LexState) (started : Bool) (acc : List Char)
    (toks : List (List Char)) : List Char → Except (List Char) (List (List Char))
  | [] =>
    match st with
    | .word =>
        if started || acc ≠ [] then .ok ((acc.reverse :: toks).reverse)
        else .ok toks.reverse
    | .single => .error "No closing quotation".data
    | .double => .error "No closing quotation".data
  | c :: rest =>
    match st with
    | .word =>
        if shlexWs c then
          if started || acc ≠ [] then shlexSplitAux .word false [] (acc.reverse :: toks) rest
          else shlexSplitAux .word false [] toks rest
        else if c = '\'' then shlexSplitAux .single true acc toks rest
        else if c = '"' then shlexSplitAux .double true acc toks rest
        else if c = '\\' then
          match rest with
          | [] => .error "No escaped character".data
          | d :: rest2 => shlexSplitAux .word true (d :: acc) toks rest2
        else shlexSplitAux .word true (c :: acc) toks rest
    | .single =>
        if c = '\'' then shlexSplitAux .word true acc toks rest
        else shlexSplitAux .single true (c :: acc) toks rest
    | .double =>
        if c = '"' then shlexSplitAux .word true acc toks rest
        else if c = '\\' then
          match rest with
          | [] => .error "No escaped character".data
          | d :: rest2 =>
              if d = '"' || d = '\\' then shlexSplitAux .double true (d :: acc) toks rest2
              else shlexSplitAux .double true (d :: '\\' :: acc) toks rest2
        else shlexSplitAux .double true (c :: acc) toks rest

/-- Python `shlex.split(s)`. -/
def shlexSplit (s : List Char) : Except (List Char) (List (List Char)) :=
  shlexSplitAux .word false [] [] s

/-! ## export / unset / source / run -/

/-- Python `str.strip()` (ASCII whitespace; the commands in the claims are ASCII). -/
def pyIsSpace (c : Char) : Bool :=
  c = ' ' || c = '\t' || c = '\n' || c = '\r' || c = Char.ofNat 11 || c = Char.ofNat 12

def pyStrip (s : List Char) : List Char :=
  ((s.dropWhile pyIsSpace).reverse.dropWhile pyIsSpace).reverse

/-- The `for part in shlex.split(rest)` loop of `_apply_export_or_unset`:
each token with `=` is split once and assigned in place; the first token
without `=` aborts with the `Invalid export` message, keeping the assignments
already made. -/
def exportLoop (env : Env) : List (List Char) → Env × Option (List Char)
  | [] => (env, none)
  | part :: rest =>
      if part.contains '=' then
        exportLoop (envSet env (part.takeWhile (· ≠ '='))
          ((part.dropWhile (· ≠ '=')).drop 1)) rest
      else (env, some ("Invalid export: ".data ++ part))

/-- `ShellSession._apply_export_or_unset(command)`: returns the updated
environment and the optional message; `.error` models the `ValueError` that
`shlex.split` raises escaping the method. -/
def apply_export_or_unset (env : Env) (command : List Char) :
    Except (List Char) (Env × Option (List Char)) :=
  let stripped := pyStrip command
  if "export ".data.isPrefixOf stripped then
    let rest := pyStrip (stripped.drop 7)
    if rest = [] then .ok (env, some "Usage: export KEY=VALUE".data)
    else
      match shlexSplit rest with
      | .error e => .error e
      | .ok parts => .ok (exportLoop env parts)
  else if "unset ".data.isPrefixOf stripped then
    let key := pyStrip (stripped.drop 6)
    if key = [] then .ok (env, some "Usage: unset KEY".data)
    else .ok (envUnset env key, none)
  else .ok (env, none)

/-- Observable result of the `bash -lc 'set -a; source ...; env -0'` subshell
that `apply_source` spawns (external I/O, so an input to the model):
exit code, decoded stderr, and the parsed `env -0` output. -/
structure SourceWorld where
  rc : Int
  errText : List Char
  envOut : Env
deriving Repr

/-- `ShellSession.apply_source(script_path)`. -/
def apply_source (fs : FS) (w : SourceWorld) (sess : ShellSession)
    (script_path : List Char) : ShellSession × Bool × List Char :=
  let file_path :=
    if startsWithSlash script_path then parsePath script_path
    else resolvePath (sess.cwd ++ parsePath script_path)
  if ¬ is_within file_path sess.workspace_root then
    (sess, false, "Refusing to source outside workspace".data)
  else if ¬ fs.existsPath file_path then
    (sess, false, "No such file: ".data ++ script_path)
  else if w.rc ≠ 0 then
    (sess, false,
      if w.errText ≠ [] then w.errText
      else "source failed with code ".data ++ (toString w.rc).data)
  else
    (if w.envOut ≠ [] then { sess with env := w.envOut } else sess,
     true, "Applied: ".data ++ script_path)

/-- External observations `run` makes besides the filesystem: the source
subshell's outcome, the general-command subprocess result (`none` models the
timeout path), and `Path.cwd()` for the last-resort fallback. -/
structure RunWorld where
  source : SourceWorld
  exec : Option (Int × List Char × List Char)
  processCwd : PyPath
deriving Repr

/-- The cwd pre-check at the top of `run`: if the working directory no longer
exists, fall back to the workspace root, or to `Path.cwd()` if that is gone too. -/
def ensureCwd (fs : FS) (w : RunWorld) (sess : ShellSession) : ShellSession :=
  if ¬ (fs.existsPath sess.cwd && fs.isDir sess.cwd) then
    { sess with cwd := if fs.existsPath sess.workspace_root then sess.workspace_root
                       else w.processCwd }
  else sess

/-- `ShellSession.run(command, timeout)`: returns the session as mutated and
either the `(exit_code, stdout, stderr)` triple or, as `.error`, an exception
that escaped (the `ValueError` from `shlex.split`). -/
def ShellSession.run (fs : FS) (w : RunWorld) (sess : ShellSession)
    (command : List Char) (timeout : Nat) :
    ShellSession × Except (List Char) (Int × List Char × List Char) :=
  let sess := ensureCwd fs w sess
  let stripped := pyStrip command
  if "cd ".data.isPrefixOf stripped ∨ stripped = "cd".data then
    let r :=
      if stripped = "cd".data then change_dir fs sess (renderPath sess.workspace_root)
      else change_dir fs sess (pyStrip (stripped.drop 3))
    (r.1, .ok (if r.2.1 then 0 else 1, r.2.2 ++ ['\n'], []))
  else if "source ".data.isPrefixOf stripped then
    let r := apply_source fs w.source sess (pyStrip (stripped.drop 7))
    (r.1, .ok (if r.2.1 then 0 else 1, r.2.2 ++ ['\n'], []))
  else if ". ".data.isPrefixOf stripped then
    let r := apply_source fs w.source sess (pyStrip (stripped.drop 2))
    (r.1, .ok (if r.2.1 then 0 else 1, r.2.2 ++ ['\n'], []))
  else
    match apply_export_or_unset sess.env stripped with
    | .error e => (sess, .error e)
    | .ok (env', some msg) =>
        if msg ≠ [] then ({ sess with env := env' }, .ok (1, [], msg ++ ['\n']))
        else ({ sess with env := env' }, .ok (0, [], []))
    | .ok (env', none) =>
        let sess' := { sess with env := env' }
        match w.exec with
        | none => (sess', .ok (124, [],
            "[timeout after ".data ++ (toString timeout).data ++ "s]\n".data))
        | some (rc, out, err) => (sess', .ok (rc, out, err))

/-! ## Working-directory containment (claim C3) -/

/-- A Shell Session operation of the claim: a `changeDirectory` request or a
`run` call (with the external observations that call makes). -/
inductive ShellOp
  | chdir (target : List Char)
  | runCmd (w : RunWorld) (command : List Char) (timeout : Nat)

def applyOp (fs : FS) (sess : ShellSession) : ShellOp → ShellSession
  | .chdir t => (change_dir fs sess t).1
  | .runCmd w c tmo => (ShellSession.run fs w sess c tmo).1

def applyOps (fs : FS) (sess : ShellSession) (ops : List ShellOp) : ShellSession :=
  ops.foldl (applyOp fs) sess

/-- The containment invariant: the working directory resolves to the workspace
root or a descendant of it. -/
def cwdContained (sess : ShellSession) : Prop :=
  is_within sess.cwd sess.workspace_root = true

instance (sess : ShellSession) : Decidable (cwdContained sess) :=
  inferInstanceAs (Decidable (_ = _))

theorem change_dir_root_eq (fs : FS) (sess : ShellSession) (t : List Char) :
    (change_dir fs sess t).1.workspace_root = sess.workspace_root := by
  unfold change_dir
  dsimp only
  split <;> rfl

theorem change_dir_cwd_within (fs : FS) (sess : ShellSession) (t : List Char)
    (h : is_within sess.cwd sess.workspace_root = true) :
    is_within (change_dir fs sess t).1.cwd sess.workspace_root = true := by
  unfold change_dir
  dsimp only
  split
  · exact clamp_cwd_within _ _
  · exact h

theorem apply_source_state (fs : FS) (w : SourceWorld) (sess : ShellSession)
    (p : List Char) :
    (apply_source fs w sess p).1.cwd = sess.cwd ∧
    (apply_source fs w sess p).1.workspace_root = sess.workspace_root := by
  unfold apply_source
  dsimp only
  split_ifs <;> exact ⟨rfl, rfl⟩

theorem ensureCwd_root_eq (fs : FS) (w : RunWorld) (sess : ShellSession) :
    (ensureCwd fs w sess).workspace_root = sess.workspace_root := by
  unfold ensureCwd
  split <;> rfl

theorem ensureCwd_cwd_within (fs : FS) (w : RunWorld) (sess : ShellSession)
    (hroot : fs.existsPath sess.workspace_root = true)
    (h : is_within sess.cwd sess.workspace_root = true) :
    is_within (ensureCwd fs w sess).cwd sess.workspace_root = true := by
  unfold ensureCwd
  split
  · simp only [hroot, if_true]
    exact is_within_refl _
  · exact h

theorem run_root_eq (fs : FS) (w : RunWorld) (sess : ShellSession)
    (command : List Char) (timeout : Nat) :
    (ShellSession.run fs w sess command timeout).1.workspace_root
      = sess.workspace_root := by
  rw [← ensureCwd_root_eq fs w sess]
  unfold ShellSession.run
  dsimp only
  split
  · split <;> rw [change_dir_root_eq]
  split
  · exact (apply_source_state _ _ _ _).2
  split
  · exact (apply_source_state _ _ _ _).2
  split
  · rfl
  · split <;> rfl
  · split <;> rfl

theorem run_cwd_within (fs : FS) (w : RunWorld) (sess : ShellSession)
    (command : List Char) (timeout : Nat)
    (hroot : fs.existsPath sess.workspace_root = true)
    (h : is_within sess.cwd sess.workspace_root = true) :
    is_within (ShellSession.run fs w sess command timeout).1.cwd
      sess.workspace_root = true := by
  have h1 : is_within (ensureCwd fs w sess).cwd sess.workspace_root = true :=
    ensureCwd_cwd_within fs w sess hroot h
  have hr : (ensureCwd fs w sess).workspace_root = sess.workspace_root :=
    ensureCwd_root_eq fs w sess
  unfold ShellSession.run
  dsimp only
  split
  · split <;>
      (rw [← hr]; exact change_dir_cwd_within _ _ _ (by rw [hr]; exact h1))
  split
  · rw [(apply_source_state _ _ _ _).1]; exact h1
  split
  · rw [(apply_source_state _ _ _ _).1]; exact h1
  split
  · exact h1
  · split <;> exact h1
  · split <;> exact h1

theorem existsPath_of_isDir (fs : FS) (p : PyPath) (h : fs.isDir p = true) :
    fs.existsPath p = true := by
  simp [FS.existsPath, FS.isDir] at *
  exact Or.inl h

theorem is_within_resolve_left (c p : PyPath) :
    is_within (resolvePath c) p = is_within c p := by
  simp [is_within, resolvePath_idem]

/-- A `change_dir` whose resolved target falls outside the workspace root
commits the workspace root itself (provided the root is an existing directory). -/
theorem change_dir_outside (fs : FS) (sess : ShellSession) (target : List Char)
    (hroot_dir : fs.isDir sess.workspace_root = true)
    (houtside : is_within (cdTargetPath sess target) sess.workspace_root = false) :
    (change_dir fs sess target).1.cwd = sess.workspace_root := by
  have hex : fs.existsPath sess.workspace_root = true :=
    existsPath_of_isDir fs _ hroot_dir
  unfold change_dir clamp_cwd
  dsimp only
  rw [is_within_resolve_left, houtside]
  simp only [Bool.false_eq_true, if_false, hex, hroot_dir, Bool.and_self, if_true]

theorem applyOp_state (fs : FS) (sess : ShellSession) (op : ShellOp)
    (hroot : fs.existsPath sess.workspace_root = true)
    (h : cwdContained sess) :
    cwdContained (applyOp fs sess op) ∧
    (applyOp fs sess op).workspace_root = sess.workspace_root := by
  cases op with
  | chdir t =>
      simp only [applyOp]
      refine ⟨?_, change_dir_root_eq fs sess t⟩
      unfold cwdContained
      rw [change_dir_root_eq]
      exact change_dir_cwd_within fs sess t h
  | runCmd w c tmo =>
      simp only [applyOp]
      refine ⟨?_, run_root_eq fs w sess c tmo⟩
      unfold cwdContained
      rw [run_root_eq]
      exact run_cwd_within fs w sess c tmo hroot h

theorem applyOps_state (fs : FS) (sess : ShellSession) (ops : List ShellOp)
    (hroot : fs.existsPath sess.workspace_root = true)
    (h : cwdContained sess) :
    cwdContained (applyOps fs sess ops) ∧
    (applyOps fs sess ops).workspace_root = sess.workspace_root := by
  induction ops generalizing sess with
  | nil => exact ⟨h, rfl⟩
  | cons op rest ih =>
      have hstep := applyOp_state fs sess op hroot h
      have hroot' : fs.existsPath (applyOp fs sess op).workspace_root = true := by
        rw [hstep.2]; exact hroot
      have hrest := ih (applyOp fs sess op) hroot' hstep.1
      simp only [applyOps, List.foldl_cons] at *
      exact ⟨hrest.1, hrest.2.trans hstep.2⟩

/-- **C3.** Working-directory containment: for every sequence of Shell Session
operations (`changeDirectory` with any target and `run` calls) on a session
whose workspace root exists, the working directory always resolves to the
workspace root or a descendant of it, the workspace root itself never changes,
and a `changeDirectory` request whose resolved target lies outside the root
(e.g. a `..` chain or an absolute path outside) leaves the working directory
clamped to the workspace root itself. -/
theorem shell_cwd_containment (fs : FS) (sess : ShellSession) (ops : List ShellOp)
    (hroot : fs.existsPath sess.workspace_root = true)
    (h : cwdContained sess) :
    cwdContained (applyOps fs sess ops) ∧
    (applyOps fs sess ops).workspace_root = sess.workspace_root ∧
    (∀ target, fs.isDir (applyOps fs sess ops).workspace_root = true →
        is_within (cdTargetPath (applyOps fs sess ops) target)
            (applyOps fs sess ops).workspace_root = false →
        (change_dir fs (applyOps fs sess ops) target).1.cwd
          = (applyOps fs sess ops).workspace_root) := by
  obtain ⟨h1, h2⟩ := applyOps_state fs sess ops hroot h
  exact ⟨h1, h2, fun target hd ho => change_dir_outside fs _ target hd ho⟩

/-- Witness data for C3: root `/w`, one existing subdirectory `/w/sub`, an outside
directory `/etc`, and a sequence trying to escape via `..` and absolute paths. -/
def c3fs : FS := { dirs := [["w".data], ["w".data, "sub".data], ["etc".data]], files := [] }

def c3sess : ShellSession :=
  { workspace_root := ["w".data], cwd := ["w".data], env := [] }

def c3world : RunWorld :=
  { source := { rc := 0, errText := [], envOut := [] },
    exec := some (0, [], []), processCwd := ["p".data] }

def c3ops : List ShellOp :=
  [ShellOp.chdir "../../etc".data,
   ShellOp.runCmd c3world "cd /etc".data 60,
   ShellOp.chdir "sub".data,
   ShellOp.runCmd c3world "cd ../..".data 60]

theorem shell_cwd_containment_witness :
    cwdContained (applyOps c3fs c3sess c3ops) ∧
    (applyOps c3fs c3sess c3ops).workspace_root = c3sess.workspace_root ∧
    (∀ target, c3fs.isDir (applyOps c3fs c3sess c3ops).workspace_root = true →
        is_within (cdTargetPath (applyOps c3fs c3sess c3ops) target)
            (applyOps c3fs c3sess c3ops).workspace_root = false →
        (change_dir c3fs (applyOps c3fs c3sess c3ops) target).1.cwd
          = (applyOps c3fs c3sess c3ops).workspace_root) :=
  shell_cwd_containment c3fs c3sess c3ops (by decide) (by decide)

/-! ## Bare `cd` resets to the workspace root (claim C9) -/

theorem ensureCwd_env_eq (fs : FS) (w : RunWorld) (sess : ShellSession) :
    (ensureCwd fs w sess).env = sess.env := by
  unfold ensureCwd
  split <;> rfl

theorem session_update_cwd (s t : ShellSession) (x : PyPath)
    (hr : s.workspace_root = t.workspace_root) (he : s.env = t.env) :
    ({ s with cwd := x } : ShellSession) = { t with cwd := x } := by
  cases s; cases t; simp_all

theorem change_dir_to_root (fs : FS) (s : ShellSession)
    (hroot_dir : fs.isDir s.workspace_root = true)
    (hvalid : validPath s.workspace_root = true) :
    change_dir fs s (renderPath s.workspace_root)
      = ({ s with cwd := s.workspace_root }, true, renderPath s.workspace_root) := by
  unfold change_dir cdTargetPath clamp_cwd
  dsimp only
  simp only [show startsWithSlash (renderPath s.workspace_root) = true from rfl, if_true,
    parsePath_renderPath _ hvalid, resolvePath_of_valid _ hvalid, is_within_refl,
    existsPath_of_isDir fs _ hroot_dir, hroot_dir, Bool.and_self]

/-- **C9.** `run` with the bare command `cd` sets the working directory to the
session's workspace root (not any home directory) and returns exit code 0 with
the new directory (followed by a newline) as stdout, provided the workspace
root exists as a directory. -/
theorem run_bare_cd (fs : FS) (w : RunWorld) (sess : ShellSession) (timeout : Nat)
    (hroot_dir : fs.isDir sess.workspace_root = true)
    (hvalid : validPath sess.workspace_root = true) :
    ShellSession.run fs w sess "cd".data timeout =
      ({ sess with cwd := sess.workspace_root },
       Except.ok (0, renderPath sess.workspace_root ++ ['\n'], [])) := by
  have hr := ensureCwd_root_eq fs w sess
  have he := ensureCwd_env_eq fs w sess
  have hd : fs.isDir (ensureCwd fs w sess).workspace_root = true := by rw [hr]; exact hroot_dir
  have hv : validPath (ensureCwd fs w sess).workspace_root = true := by rw [hr]; exact hvalid
  unfold ShellSession.run
  dsimp only
  rw [show pyStrip "cd".data = "cd".data from by decide]
  split
  · split
    · rw [change_dir_to_root fs _ hd hv]
      dsimp only
      rw [session_update_cwd _ sess _ hr he, hr]
      simp
    · rename_i hne
      exact absurd rfl hne
  · rename_i hcond
    exact absurd (Or.inr rfl) hcond

/-- Witness data for C9. -/
def c9fs : FS := { dirs := [["w9".data]], files := [] }

def c9sess : ShellSession :=
  { workspace_root := ["w9".data], cwd := ["w9".data], env := [] }

def c9world : RunWorld :=
  { source := { rc := 0, errText := [], envOut := [] },
    exec := some (0, [], []), processCwd := [] }

theorem run_bare_cd_witness :
    ShellSession.run c9fs c9world c9sess "cd".data 60 =
      ({ c9sess with cwd := c9sess.workspace_root },
       Except.ok (0, renderPath c9sess.workspace_root ++ ['\n'], [])) :=
  run_bare_cd c9fs c9world c9sess 60 (by decide) (by decide)

/-! ## Export failure is not atomic (claim C4) -/

theorem pyStrip_eq_self_of_ends (s : List Char) (h1 : s.dropWhile pyIsSpace = s)
    (h2 : s.reverse.dropWhile pyIsSpace = s.reverse) : pyStrip s = s := by
  unfold pyStrip
  rw [h1, h2, List.reverse_reverse]

theorem dropWhile_append_left (p : Char → Bool) (l l₂ : List Char) (hne : l ≠ [])
    (h : l.dropWhile p = l) : (l ++ l₂).dropWhile p = l ++ l₂ := by
  cases l with
  | nil => exact absurd rfl hne
  | cons a t =>
      have ha : ¬ (p a = true) := by
        simpa using (List.dropWhile_eq_self_iff.mp h) (by simp)
      simp [List.dropWhile_cons_of_neg ha]

/-- `pyStrip` of `"export " ++ rest` when `rest` itself carries no outer
whitespace. -/
theorem pyStrip_export (rest : List Char) (hne : rest ≠ [])
    (h2 : rest.reverse.dropWhile pyIsSpace = rest.reverse) :
    pyStrip ("export ".data ++ rest) = "export ".data ++ rest := by
  refine pyStrip_eq_self_of_ends _ ?_ ?_
  · exact dropWhile_append_left pyIsSpace _ rest (by decide) (by decide)
  · rw [List.reverse_append]
    exact dropWhile_append_left pyIsSpace _ _ (by simpa using hne) h2

/-- The assignments the export loop applies for a list of (valid) tokens. -/
def applyExports (env : Env) (parts : List (List Char)) : Env :=
  parts.foldl
    (fun e q => envSet e (q.takeWhile (· ≠ '=')) ((q.dropWhile (· ≠ '=')).drop 1)) env

theorem exportLoop_invalid (env : Env) (pre post : List (List Char)) (bad : List Char)
    (hpre : ∀ q ∈ pre, q.contains '=' = true)
    (hbad : bad.contains '=' = false) :
    exportLoop env (pre ++ bad :: post)
      = (applyExports env pre, some ("Invalid export: ".data ++ bad)) := by
  induction pre generalizing env with
  | nil =>
      simp only [List.nil_append, exportLoop, hbad, Bool.false_eq_true, if_false]
      rfl
  | cons q pre ih =>
      have hq : q.contains '=' = true := hpre q (List.mem_cons_self q pre)
      simp only [List.cons_append, exportLoop, hq, if_true, List.append_eq]
      rw [ih _ (fun r hr => hpre r (List.mem_cons_of_mem q hr))]
      rfl

theorem apply_export_invalid (env : Env) (rest : List Char)
    (parts pre post : List (List Char)) (bad : List Char)
    (h1 : rest.dropWhile pyIsSpace = rest)
    (h2 : rest.reverse.dropWhile pyIsSpace = rest.reverse)
    (hne : rest ≠ [])
    (hsplit : shlexSplit rest = .ok parts)
    (hparts : parts = pre ++ bad :: post)
    (hpre : ∀ q ∈ pre, q.contains '=' = true)
    (hbad : bad.contains '=' = false) :
    apply_export_or_unset env ("export ".data ++ rest)
      = .ok (applyExports env pre, some ("Invalid export: ".data ++ bad)) := by
  unfold apply_export_or_unset
  rw [pyStrip_export rest hne h2]
  dsimp only
  rw [if_pos (List.isPrefixOf_iff_prefix.mpr (List.prefix_append _ _))]
  rw [show ("export ".data ++ rest).drop 7 = rest from by
    rw [show (7 : Nat) = "export ".data.length from rfl]
    exact List.drop_left _ _]
  rw [pyStrip_eq_self_of_ends rest h1 h2]
  rw [if_neg hne, hsplit, hparts]
  dsimp only
  rw [exportLoop_invalid env pre post bad hpre hbad]

theorem isPrefixOf_false_of_head (a b : Char) (as bs : List Char) (h : (a == b) = false) :
    List.isPrefixOf (a :: as) (b :: bs) = false := by
  rw [List.isPrefixOf_cons₂, h, Bool.false_and]

/-- **C4 (amended).** An `export` command whose token list has a first token
without `=` makes `run` return exit code 1 with the `Invalid export` message
naming that token — but the session environment keeps the assignments of the
tokens *before* it; only the invalid token and the ones after it are not
applied.  The working directory is untouched beyond the `run` pre-check. -/
theorem run_export_invalid (fs : FS) (w : RunWorld) (sess : ShellSession) (timeout : Nat)
    (rest : List Char) (parts pre post : List (List Char)) (bad : List Char)
    (h1 : rest.dropWhile pyIsSpace = rest)
    (h2 : rest.reverse.dropWhile pyIsSpace = rest.reverse)
    (hne : rest ≠ [])
    (hsplit : shlexSplit rest = .ok parts)
    (hparts : parts = pre ++ bad :: post)
    (hpre : ∀ q ∈ pre, q.contains '=' = true)
    (hbad : bad.contains '=' = false) :
    ShellSession.run fs w sess ("export ".data ++ rest) timeout =
      ({ ensureCwd fs w sess with env := applyExports (ensureCwd fs w sess).env pre },
       Except.ok (1, [], "Invalid export: ".data ++ bad ++ ['\n'])) := by
  have hc1 : "cd ".data.isPrefixOf ("export ".data ++ rest) = false :=
    isPrefixOf_false_of_head 'c' 'e' _ _ (by decide)
  have hc2 : "export ".data ++ rest ≠ "cd".data := by
    intro h
    have hl := congrArg List.length h
    simp [List.length_append] at hl
  have hsrc : "source ".data.isPrefixOf ("export ".data ++ rest) = false :=
    isPrefixOf_false_of_head 's' 'e' _ _ (by decide)
  have hdot : ". ".data.isPrefixOf ("export ".data ++ rest) = false :=
    isPrefixOf_false_of_head '.' 'e' _ _ (by decide)
  unfold ShellSession.run
  dsimp only
  rw [pyStrip_export rest hne h2]
  rw [if_neg (by
    rintro (ha | hb)
    · rw [hc1] at ha
      exact Bool.false_ne_true ha
    · exact hc2 hb)]
  rw [if_neg (by
    intro ha
    rw [hsrc] at ha
    exact Bool.false_ne_true ha)]
  rw [if_neg (by
    intro ha
    rw [hdot] at ha
    exact Bool.false_ne_true ha)]
  rw [apply_export_invalid (ensureCwd fs w sess).env rest parts pre post bad
    h1 h2 hne hsplit hparts hpre hbad]
  dsimp only
  rw [if_pos (by simp : ("Invalid export: ".data ++ bad) ≠ [])]

/-- Concrete data for C4: an empty starting environment and the command
`export A=1 B`. -/
def c4fs : FS := { dirs := [["w4".data]], files := [] }

def c4sess : ShellSession :=
  { workspace_root := ["w4".data], cwd := ["w4".data], env := [] }

def c4world : RunWorld :=
  { source := { rc := 0, errText := [], envOut := [] },
    exec := some (0, [], []), processCwd := [] }

/-- Counterexample to C4 as stated: `run "export A=1 B"` reports
`Invalid export: B`, yet the environment is *not* unchanged — `A=1` was
already set when the failure was reported. -/
theorem export_not_atomic_cex :
    (ShellSession.run c4fs c4world c4sess "export A=1 B".data 60).2
        = Except.ok (1, [], "Invalid export: B\n".data) ∧
    (ShellSession.run c4fs c4world c4sess "export A=1 B".data 60).1.env
        = [("A".data, "1".data)] ∧
    c4sess.env = [] :=
  ⟨rfl, rfl, rfl⟩

theorem run_export_invalid_witness :
    ShellSession.run c4fs c4world c4sess ("export ".data ++ "A=1 B".data) 60 =
      ({ ensureCwd c4fs c4world c4sess with
          env := applyExports (ensureCwd c4fs c4world c4sess).env ["A=1".data] },
       Except.ok (1, [], "Invalid export: ".data ++ "B".data ++ ['\n'])) :=
  run_export_invalid c4fs c4world c4sess 60 "A=1 B".data
    ["A=1".data, "B".data] ["A=1".data] [] "B".data
    (by decide) (by decide) (by decide) rfl (by decide)
    (by decide) (by decide)

/-! ## `run` raises only on export lexing failures (claim C7) -/

theorem pyStrip_eq (s : List Char) :
    pyStrip s = List.rdropWhile pyIsSpace (s.dropWhile pyIsSpace) := by
  simp [pyStrip, List.rdropWhile]

theorem dropWhile_eq_self_of_front (p : Char → Bool) (v l : List Char)
    (hpre : v <+: l) (h : l.dropWhile p = l) : v.dropWhile p = v := by
  cases v with
  | nil => rfl
  | cons a t =>
      obtain ⟨u, hu⟩ := hpre
      have ha : ¬ (p a = true) := by
        intro hpa
        rw [← hu, List.cons_append, List.dropWhile_cons_of_pos hpa] at h
        have hlen := congrArg List.length h
        have hle := (List.dropWhile_suffix (l := t ++ u) p).sublist.length_le
        simp [List.length_cons, List.length_append] at hlen hle
        omega
      simp [List.dropWhile_cons_of_neg ha]

theorem pyStrip_idem (s : List Char) : pyStrip (pyStrip s) = pyStrip s := by
  rw [pyStrip_eq s, pyStrip_eq]
  rw [dropWhile_eq_self_of_front pyIsSpace _ (s.dropWhile pyIsSpace)
    (List.rdropWhile_prefix pyIsSpace _) (List.dropWhile_idempotent pyIsSpace s)]
  exact List.rdropWhile_idempotent pyIsSpace _

/-- The only way `_apply_export_or_unset` lets an exception escape is
`shlex.split` failing on the text after `export `. -/
theorem apply_export_error (env : Env) (c e : List Char)
    (h : apply_export_or_unset env c = .error e) :
    "export ".data.isPrefixOf (pyStrip c) = true ∧
    shlexSplit (pyStrip ((pyStrip c).drop 7)) = .error e := by
  unfold apply_export_or_unset at h
  dsimp only at h
  by_cases hexp : "export ".data.isPrefixOf (pyStrip c) = true
  · refine ⟨hexp, ?_⟩
    rw [if_pos hexp] at h
    by_cases hrest : pyStrip ((pyStrip c).drop 7) = []
    · rw [if_pos hrest] at h
      exact Except.noConfusion h
    · rw [if_neg hrest] at h
      cases hs : shlexSplit (pyStrip ((pyStrip c).drop 7)) with
      | error f =>
          rw [hs] at h
          injection h with h2
          rw [h2]
      | ok parts =>
          rw [hs] at h
          exact Except.noConfusion h
  · rw [if_neg hexp] at h
    by_cases huns : "unset ".data.isPrefixOf (pyStrip c) = true
    · rw [if_pos huns] at h
      split at h <;> exact Except.noConfusion h
    · rw [if_neg huns] at h
      exact Except.noConfusion h

/-! ### The `ValueError` paths of `run`, modelled in full

Besides the `shlex.split` failure, CPython raises
`ValueError("embedded null byte")` when a NUL byte reaches `Path.resolve()`
(in `change_dir`'s target or `apply_source`'s relative path) or
`create_subprocess_shell` (in the command line, the working directory string,
or an environment entry).  `Path.exists()` / `Path.is_dir()` swallow that
`ValueError` and report `False`, and `_is_within` catches every exception and
reports `False`.  The `Checked` definitions below model the same source
functions as `ensureCwd`, `change_dir`, `apply_source` and `run`, with these
raise points explicit; the earlier definitions collapse them (the containment
and export claims never rely on those paths). -/

def nulChar : Char := Char.ofNat 0

def hasNul (s : List Char) : Bool := decide (nulChar ∈ s)

def pathHasNul (p : PyPath) : Bool := decide (∃ c ∈ p, nulChar ∈ c)

def envHasNul (env : Env) : Bool :=
  decide (∃ kv ∈ env, nulChar ∈ kv.1 ∨ nulChar ∈ kv.2)

/-- `ValueError("embedded null byte")`. -/
def nulErr : List Char := "embedded null byte".data

/-- `Path.exists()` on a NUL-containing path reports `False` (the `ValueError`
from `os.stat` is swallowed). -/
def FS.existsPathChecked (fs : FS) (p : PyPath) : Bool :=
  !pathHasNul p && fs.existsPath p

def FS.isDirChecked (fs : FS) (p : PyPath) : Bool :=
  !pathHasNul p && fs.isDir p

/-- `change_dir` with the raise modelled: `(self.cwd / target).resolve()` (or
`_clamp_cwd`'s `path.resolve()` for an absolute target) raises on a NUL byte
anywhere in the unresolved target path, escaping before any state change. -/
def change_dirChecked (fs : FS) (sess : ShellSession) (target : List Char) :
    ShellSession × Except (List Char) (Bool × List Char) :=
  let t0 := if startsWithSlash target then parsePath target
            else sess.cwd ++ parsePath target
  if pathHasNul t0 then (sess, .error nulErr)
  else
    let target_path := if startsWithSlash target then parsePath target
                       else resolvePath (sess.cwd ++ parsePath target)
    let new_cwd := clamp_cwd target_path sess.workspace_root
    if fs.existsPathChecked new_cwd && fs.isDirChecked new_cwd then
      ({ sess with cwd := new_cwd }, .ok (true, renderPath new_cwd))
    else (sess, .ok (false, "No such directory: ".data ++ target))

/-- The `file_path` computation of `apply_source`: the relative-path
`.resolve()` raises on a NUL byte; `Path(script_path)` for an absolute path
does not resolve and cannot raise. -/
def sourceFilePath (sess : ShellSession) (script_path : List Char) :
    Except (List Char) PyPath :=
  if startsWithSlash script_path then .ok (parsePath script_path)
  else
    let t0 := sess.cwd ++ parsePath script_path
    if pathHasNul t0 then .error nulErr else .ok (resolvePath t0)

/-- `apply_source` with the raises modelled: the relative-path resolve, and the
subshell spawn's argument validation (NUL in the cwd string or an environment
entry; the command line built via `shlex.quote` is NUL-free at that point).
`_is_within` reports `False` whenever a resolve inside it raises. -/
def apply_sourceChecked (fs : FS) (w : SourceWorld) (sess : ShellSession)
    (script_path : List Char) : ShellSession × Except (List Char) (Bool × List Char) :=
  match sourceFilePath sess script_path with
  | .error e => (sess, .error e)
  | .ok file_path =>
      if pathHasNul file_path || pathHasNul sess.workspace_root
          || ¬ is_within file_path sess.workspace_root then
        (sess, .ok (false, "Refusing to source outside workspace".data))
      else if ¬ fs.existsPathChecked file_path then
        (sess, .ok (false, "No such file: ".data ++ script_path))
      else if pathHasNul sess.cwd || envHasNul sess.env then
        (sess, .error nulErr)
      else if w.rc ≠ 0 then
        (sess, .ok (false,
          if w.errText ≠ [] then w.errText
          else "source failed with code ".data ++ (toString w.rc).data))
      else
        (if w.envOut ≠ [] then { sess with env := w.envOut } else sess,
         .ok (true, "Applied: ".data ++ script_path))

/-- The cwd pre-check with NUL behavior: `exists()`/`is_dir()` report `False`
on NUL paths (no raise), so a NUL cwd silently falls back like a missing one;
the whole block is wrapped in try/except and never raises. -/
def ensureCwdChecked (fs : FS) (w : RunWorld) (sess : ShellSession) : ShellSession :=
  if ¬ (fs.existsPathChecked sess.cwd && fs.isDirChecked sess.cwd) then
    { sess with cwd := if fs.existsPathChecked sess.workspace_root then sess.workspace_root
                       else w.processCwd }
  else sess

/-- `ShellSession.run` with every `ValueError` path modelled: the `shlex.split`
failure, the `Path.resolve()` raises inside the `cd` and relative
`source`/`. ` branches, and the `create_subprocess_shell` argument validation
in the fall-through branch (NUL in the quoted command line, the cwd string, or
an environment entry — checked before the subprocess and its timeout exist). -/
def ShellSession.runChecked (fs : FS) (w : RunWorld) (sess : ShellSession)
    (command : List Char) (timeout : Nat) :
    ShellSession × Except (List Char) (Int × List Char × List Char) :=
  let sess := ensureCwdChecked fs w sess
  let stripped := pyStrip command
  if "cd ".data.isPrefixOf stripped ∨ stripped = "cd".data then
    let r := if stripped = "cd".data then
               change_dirChecked fs sess (renderPath sess.workspace_root)
             else change_dirChecked fs sess (pyStrip (stripped.drop 3))
    match r.2 with
    | .error e => (r.1, .error e)
    | .ok q => (r.1, .ok (if q.1 then 0 else 1, q.2 ++ ['\n'], []))
  else if "source ".data.isPrefixOf stripped then
    let r := apply_sourceChecked fs w.source sess (pyStrip (stripped.drop 7))
    match r.2 with
    | .error e => (r.1, .error e)
    | .ok q => (r.1, .ok (if q.1 then 0 else 1, q.2 ++ ['\n'], []))
  else if ". ".data.isPrefixOf stripped then
    let r := apply_sourceChecked fs w.source sess (pyStrip (stripped.drop 2))
    match r.2 with
    | .error e => (r.1, .error e)
    | .ok q => (r.1, .ok (if q.1 then 0 else 1, q.2 ++ ['\n'], []))
  else
    match apply_export_or_unset sess.env stripped with
    | .error e => (sess, .error e)
    | .ok (env', some msg) =>
        if msg ≠ [] then ({ sess with env := env' }, .ok (1, [], msg ++ ['\n']))
        else ({ sess with env := env' }, .ok (0, [], []))
    | .ok (env', none) =>
        let sess' := { sess with env := env' }
        if hasNul stripped || pathHasNul sess'.cwd || envHasNul env' then
          (sess', .error nulErr)
        else
          match w.exec with
          | none => (sess', .ok (124, [],
              "[timeout after ".data ++ (toString timeout).data ++ "s]\n".data))
          | some (rc, out, err) => (sess', .ok (rc, out, err))

/-! ### Character provenance: every NUL that reaches a raise point came from
the command text (or the session state, which the claim's hypotheses rule out) -/

theorem hasNul_false_mono (a b : List Char) (hsub : a ⊆ b) (h : hasNul b = false) :
    hasNul a = false := by
  simp only [hasNul, decide_eq_false_iff_not] at *
  exact fun hm => h (hsub hm)

theorem pyStrip_subset (s : List Char) : pyStrip s ⊆ s := by
  intro x hx
  unfold pyStrip at hx
  rw [List.mem_reverse] at hx
  have hx2 := List.dropWhile_subset pyIsSpace hx
  rw [List.mem_reverse] at hx2
  exact List.dropWhile_subset pyIsSpace hx2

theorem mem_intersperse_of_mem {α : Type} (sep x : α) :
    ∀ ls : List α, x ∈ ls → x ∈ ls.intersperse sep
  | [], h => absurd h (List.not_mem_nil x)
  | [_], h => by simpa using h
  | y :: z :: tl, h => by
      rw [List.intersperse_cons_cons]
      rcases List.mem_cons.mp h with h | h
      · simp [h]
      · have := mem_intersperse_of_mem sep x (z :: tl) h
        simp only [List.mem_cons]
        tauto

theorem mem_of_mem_intersperse {α : Type} (sep x : α) :
    ∀ ls : List α, x ∈ ls.intersperse sep → x ∈ ls ∨ x = sep
  | [], h => absurd h (List.not_mem_nil x)
  | [_], h => by simpa using Or.inl h
  | y :: z :: tl, h => by
      rw [List.intersperse_cons_cons] at h
      rcases List.mem_cons.mp h with h | h
      · exact Or.inl (by simp [h])
      · rcases List.mem_cons.mp h with h | h
        · exact Or.inr h
        · rcases mem_of_mem_intersperse sep x (z :: tl) h with h | h
          · exact Or.inl (List.mem_cons_of_mem y h)
          · exact Or.inr h

theorem mem_of_mem_splitOn (x : Char) (s comp : List Char)
    (hcomp : comp ∈ s.splitOn '/') (hx : x ∈ comp) : x ∈ s := by
  have hs : ['/'].intercalate (s.splitOn '/') = s := List.intercalate_splitOn s '/'
  rw [← hs]
  exact List.mem_flatten_of_mem (mem_intersperse_of_mem ['/'] comp _ hcomp) hx

theorem mem_of_mem_parsePath (x : Char) (s comp : List Char)
    (hcomp : comp ∈ parsePath s) (hx : x ∈ comp) : x ∈ s := by
  unfold parsePath at hcomp
  exact mem_of_mem_splitOn x s comp
    (List.mem_of_mem_filter (List.mem_of_mem_filter hcomp)) hx

theorem pathHasNul_parsePath (s : List Char) (h : pathHasNul (parsePath s) = true) :
    hasNul s = true := by
  simp only [pathHasNul, decide_eq_true_eq] at h
  obtain ⟨c, hc, hnul⟩ := h
  simp only [hasNul, decide_eq_true_eq]
  exact mem_of_mem_parsePath nulChar s c hc hnul

theorem hasNul_renderPath (p : PyPath) (h : pathHasNul p = false) :
    hasNul (renderPath p) = false := by
  simp only [pathHasNul, decide_eq_false_iff_not] at h
  simp only [hasNul, decide_eq_false_iff_not]
  intro hmem
  unfold renderPath at hmem
  rcases List.mem_cons.mp hmem with h0 | h1
  · exact absurd h0 (by decide)
  · have h1' : nulChar ∈ (p.intersperse ['/']).flatten := h1
    obtain ⟨l, hl, hnul⟩ := List.mem_flatten.mp h1'
    rcases mem_of_mem_intersperse ['/'] l p hl with hmem | rfl
    · exact h ⟨l, hmem, hnul⟩
    · exact absurd hnul (by decide)

theorem resolvePath_subset (p : PyPath) : ∀ c ∈ resolvePath p, c ∈ p := by
  suffices h : ∀ acc : PyPath,
      ∀ c ∈ p.foldl (fun acc comp => if comp = ['.', '.'] then acc.dropLast else acc ++ [comp]) acc,
        c ∈ acc ∨ c ∈ p by
    intro c hc
    rcases h [] c hc with h | h
    · exact absurd h (List.not_mem_nil c)
    · exact h
  induction p with
  | nil =>
      intro acc c hc
      exact Or.inl (by simpa using hc)
  | cons comp rest ih =>
      intro acc c hc
      simp only [List.foldl_cons] at hc
      by_cases hcomp : comp = ['.', '.']
      · rw [if_pos hcomp] at hc
        rcases ih _ c hc with h | h
        · exact Or.inl ((List.dropLast_sublist acc).mem h)
        · exact Or.inr (List.mem_cons_of_mem comp h)
      · rw [if_neg hcomp] at hc
        rcases ih _ c hc with h | h
        · rcases List.mem_append.mp h with h | h
          · exact Or.inl h
          · exact Or.inr (by simp [List.mem_singleton.mp h])
        · exact Or.inr (List.mem_cons_of_mem comp h)

theorem pathHasNul_resolvePath (p : PyPath) (h : pathHasNul p = false) :
    pathHasNul (resolvePath p) = false := by
  simp only [pathHasNul, decide_eq_false_iff_not] at *
  rintro ⟨c, hc, hnul⟩
  exact h ⟨c, resolvePath_subset p c hc, hnul⟩

theorem mem_envSet (env : Env) (k v : List Char) (kv : List Char × List Char)
    (h : kv ∈ envSet env k v) : kv ∈ env ∨ kv = (k, v) := by
  unfold envSet at h
  split at h
  · obtain ⟨kv0, hkv0, heq⟩ := List.mem_map.mp h
    by_cases hk : kv0.1 = k
    · rw [if_pos hk] at heq
      exact Or.inr heq.symm
    · rw [if_neg hk] at heq
      exact Or.inl (heq ▸ hkv0)
  · rcases List.mem_append.mp h with h | h
    · exact Or.inl h
    · exact Or.inr (List.mem_singleton.mp h)

theorem exportLoop_env_mem (parts : List (List Char)) :
    ∀ (env env' : Env) (m : Option (List Char)), exportLoop env parts = (env', m) →
      ∀ kv ∈ env', kv ∈ env ∨ ∃ part ∈ parts,
        kv = (part.takeWhile (· ≠ '='), (part.dropWhile (· ≠ '=')).drop 1) := by
  induction parts with
  | nil =>
      intro env env' m h kv hkv
      unfold exportLoop at h
      obtain ⟨rfl, rfl⟩ := Prod.mk.injEq .. |>.mp h
      exact Or.inl hkv
  | cons part rest ih =>
      intro env env' m h kv hkv
      unfold exportLoop at h
      split at h
      · rcases ih _ _ _ h kv hkv with hmem | ⟨q, hq, hkvq⟩
        · rcases mem_envSet _ _ _ _ hmem with h1 | h1
          · exact Or.inl h1
          · exact Or.inr ⟨part, List.mem_cons_self part rest, h1⟩
        · exact Or.inr ⟨q, List.mem_cons_of_mem part hq, hkvq⟩
      · obtain ⟨rfl, rfl⟩ := Prod.mk.injEq .. |>.mp h
        exact Or.inl hkv

theorem shlexSplitAux_mem_nil (x : Char) (st : LexState) (started : Bool)
    (acc : List Char) (toks parts : List (List Char))
    (h : shlexSplitAux st started acc toks [] = .ok parts)
    (part : List Char) (hpart : part ∈ parts) (hxp : x ∈ part) :
    x ∈ acc ∨ ∃ t ∈ toks, x ∈ t := by
  cases st with
  | word =>
      simp only [shlexSplitAux] at h
      split at h
      · injection h with h
        subst h
        rw [List.mem_reverse] at hpart
        rcases List.mem_cons.mp hpart with rfl | hmem
        · exact Or.inl (by rwa [List.mem_reverse] at hxp)
        · exact Or.inr ⟨part, hmem, hxp⟩
      · injection h with h
        subst h
        rw [List.mem_reverse] at hpart
        exact Or.inr ⟨part, hpart, hxp⟩
  | single => exact Except.noConfusion h
  | double => exact Except.noConfusion h

/-- Every character of a token produced by the `shlex` state machine comes from
the unread input, the token in progress, an already-finished token — or is the
backslash the machine itself re-inserts inside double quotes. -/
theorem shlexSplitAux_mem (x : Char) (hx : x ≠ '\\') :
    ∀ (n : Nat) (input : List Char), input.length ≤ n →
    ∀ (st : LexState) (started : Bool) (acc : List Char) (toks parts : List (List Char)),
      shlexSplitAux st started acc toks input = .ok parts →
      ∀ part ∈ parts, x ∈ part →
      x ∈ input ∨ x ∈ acc ∨ ∃ t ∈ toks, x ∈ t := by
  intro n
  induction n with
  | zero =>
      intro input hlen st started acc toks parts h part hpart hxp
      have hnil : input = [] := List.length_eq_zero.mp (Nat.le_zero.mp hlen)
      subst hnil
      exact Or.inr (shlexSplitAux_mem_nil x st started acc toks parts h part hpart hxp)
  | succ n ihn =>
      intro input hlen st started acc toks parts h part hpart hxp
      cases input with
      | nil =>
          exact Or.inr (shlexSplitAux_mem_nil x st started acc toks parts h part hpart hxp)
      | cons c rest =>
          have hrest : rest.length ≤ n := by
            simp only [List.length_cons] at hlen
            omega
          cases st with
          | word =>
              unfold shlexSplitAux at h
              dsimp only at h
              split at h
              · split at h
                · rcases ihn _ hrest _ _ _ _ _ h part hpart hxp with h1 | h1 | ⟨t, ht, hxt⟩
                  · exact Or.inl (List.mem_cons_of_mem _ h1)
                  · exact absurd h1 (List.not_mem_nil x)
                  · rcases List.mem_cons.mp ht with rfl | ht
                    · exact Or.inr (Or.inl (by rwa [List.mem_reverse] at hxt))
                    · exact Or.inr (Or.inr ⟨t, ht, hxt⟩)
                · rcases ihn _ hrest _ _ _ _ _ h part hpart hxp with h1 | h1 | h1
                  · exact Or.inl (List.mem_cons_of_mem _ h1)
                  · exact absurd h1 (List.not_mem_nil x)
                  · exact Or.inr (Or.inr h1)
              · split at h
                · rcases ihn _ hrest _ _ _ _ _ h part hpart hxp with h1 | h1 | h1
                  · exact Or.inl (List.mem_cons_of_mem _ h1)
                  · exact Or.inr (Or.inl h1)
                  · exact Or.inr (Or.inr h1)
                · split at h
                  · rcases ihn _ hrest _ _ _ _ _ h part hpart hxp with h1 | h1 | h1
                    · exact Or.inl (List.mem_cons_of_mem _ h1)
                    · exact Or.inr (Or.inl h1)
                    · exact Or.inr (Or.inr h1)
                  · split at h
                    · -- escape: the next input character decides
                      split at h
                      · exact Except.noConfusion h
                      · rcases ihn _ (by simp only [List.length_cons] at hrest ⊢; omega)
                            _ _ _ _ _ h part hpart hxp with h1 | h1 | h1
                        · exact Or.inl (List.mem_cons_of_mem _ (List.mem_cons_of_mem _ h1))
                        · rcases List.mem_cons.mp h1 with rfl | h1
                          · exact Or.inl (List.mem_cons_of_mem _ (List.mem_cons_self _ _))
                          · exact Or.inr (Or.inl h1)
                        · exact Or.inr (Or.inr h1)
                    · rcases ihn _ hrest _ _ _ _ _ h part hpart hxp with h1 | h1 | h1
                      · exact Or.inl (List.mem_cons_of_mem _ h1)
                      · rcases List.mem_cons.mp h1 with rfl | h1
                        · exact Or.inl (List.mem_cons_self _ _)
                        · exact Or.inr (Or.inl h1)
                      · exact Or.inr (Or.inr h1)
          | single =>
              unfold shlexSplitAux at h
              dsimp only at h
              split at h
              · rcases ihn _ hrest _ _ _ _ _ h part hpart hxp with h1 | h1 | h1
                · exact Or.inl (List.mem_cons_of_mem _ h1)
                · exact Or.inr (Or.inl h1)
                · exact Or.inr (Or.inr h1)
              · rcases ihn _ hrest _ _ _ _ _ h part hpart hxp with h1 | h1 | h1
                · exact Or.inl (List.mem_cons_of_mem _ h1)
                · rcases List.mem_cons.mp h1 with rfl | h1
                  · exact Or.inl (List.mem_cons_self _ _)
                  · exact Or.inr (Or.inl h1)
                · exact Or.inr (Or.inr h1)
          | double =>
              unfold shlexSplitAux at h
              dsimp only at h
              split at h
              · rcases ihn _ hrest _ _ _ _ _ h part hpart hxp with h1 | h1 | h1
                · exact Or.inl (List.mem_cons_of_mem _ h1)
                · exact Or.inr (Or.inl h1)
                · exact Or.inr (Or.inr h1)
              · split at h
                · split at h
                  · exact Except.noConfusion h
                  · split at h
                    · rcases ihn _ (by simp only [List.length_cons] at hrest ⊢; omega)
                          _ _ _ _ _ h part hpart hxp with h1 | h1 | h1
                      · exact Or.inl (List.mem_cons_of_mem _ (List.mem_cons_of_mem _ h1))
                      · rcases List.mem_cons.mp h1 with rfl | h1
                        · exact Or.inl (List.mem_cons_of_mem _ (List.mem_cons_self _ _))
                        · exact Or.inr (Or.inl h1)
                      · exact Or.inr (Or.inr h1)
                    · rcases ihn _ (by simp only [List.length_cons] at hrest ⊢; omega)
                          _ _ _ _ _ h part hpart hxp with h1 | h1 | h1
                      · exact Or.inl (List.mem_cons_of_mem _ (List.mem_cons_of_mem _ h1))
                      · rcases List.mem_cons.mp h1 with rfl | h1
                        · exact Or.inl (List.mem_cons_of_mem _ (List.mem_cons_self _ _))
                        · rcases List.mem_cons.mp h1 with rfl | h1
                          · exact absurd rfl hx
                          · exact Or.inr (Or.inl h1)
                      · exact Or.inr (Or.inr h1)
                · rcases ihn _ hrest _ _ _ _ _ h part hpart hxp with h1 | h1 | h1
                  · exact Or.inl (List.mem_cons_of_mem _ h1)
                  · rcases List.mem_cons.mp h1 with rfl | h1
                    · exact Or.inl (List.mem_cons_self _ _)
                    · exact Or.inr (Or.inl h1)
                  · exact Or.inr (Or.inr h1)

theorem shlexSplit_mem (x : Char) (hx : x ≠ '\\') (s : List Char)
    (parts : List (List Char)) (h : shlexSplit s = .ok parts)
    (part : List Char) (hpart : part ∈ parts) (hxp : x ∈ part) : x ∈ s := by
  have := shlexSplitAux_mem x hx s.length s (le_refl _) .word false [] [] parts h
    part hpart hxp
  simpa using this

/-- Concrete data for C7. -/
def c7fs : FS := { dirs := [["w7".data]], files := [] }

def c7sess : ShellSession :=
  { workspace_root := ["w7".data], cwd := ["w7".data], env := [] }

def c7world : RunWorld :=
  { source := { rc := 0, errText := [], envOut := [] },
    exec := some (0, [], []), processCwd := [] }

theorem hasNul_pyStrip (command : List Char)
    (h : hasNul (pyStrip command) = true) : hasNul command = true := by
  simp only [hasNul, decide_eq_true_eq] at h ⊢
  exact pyStrip_subset command h

theorem hasNul_pyStrip_drop (command : List Char) (n : Nat)
    (h : hasNul (pyStrip ((pyStrip command).drop n)) = true) :
    hasNul command = true := by
  simp only [hasNul, decide_eq_true_eq] at h ⊢
  exact pyStrip_subset command (List.drop_subset n _ (pyStrip_subset _ h))

theorem pathHasNul_append (p q : PyPath) :
    pathHasNul (p ++ q) = (pathHasNul p || pathHasNul q) := by
  simp only [pathHasNul, ← Bool.decide_or]
  rw [decide_eq_decide]
  constructor
  · rintro ⟨c, hc, hnul⟩
    rcases List.mem_append.mp hc with h | h
    · exact Or.inl ⟨c, h, hnul⟩
    · exact Or.inr ⟨c, h, hnul⟩
  · rintro (⟨c, hc, hnul⟩ | ⟨c, hc, hnul⟩)
    · exact ⟨c, List.mem_append_left q hc, hnul⟩
    · exact ⟨c, List.mem_append_right p hc, hnul⟩

/-- After a successful `_apply_export_or_unset`, every environment entry is
NUL-free provided the prior environment and the command text were: the new
entries are substrings of `shlex` tokens of the command. -/
theorem apply_export_env_nulfree (env : Env) (c : List Char) (env2 : Env)
    (m : Option (List Char))
    (henv : envHasNul env = false) (hc : hasNul c = false)
    (h : apply_export_or_unset env c = .ok (env2, m)) :
    envHasNul env2 = false := by
  unfold apply_export_or_unset at h
  dsimp only at h
  by_cases hexp : "export ".data.isPrefixOf (pyStrip c) = true
  · rw [if_pos hexp] at h
    by_cases hrest : pyStrip ((pyStrip c).drop 7) = []
    · rw [if_pos hrest] at h
      injection h with h
      obtain ⟨rfl, -⟩ := Prod.mk.injEq .. |>.mp h
      exact henv
    · rw [if_neg hrest] at h
      cases hs : shlexSplit (pyStrip ((pyStrip c).drop 7)) with
      | error f => rw [hs] at h; exact Except.noConfusion h
      | ok parts =>
          rw [hs] at h
          injection h with h
          simp only [envHasNul, decide_eq_false_iff_not] at henv ⊢
          rintro ⟨kv, hkv, hnul⟩
          rcases exportLoop_env_mem parts env env2 m h kv hkv with hmem | ⟨part, hpart, rfl⟩
          · exact henv ⟨kv, hmem, hnul⟩
          · have hinpart : nulChar ∈ part := by
              rcases hnul with h1 | h1
              · exact List.takeWhile_subset _ h1
              · exact List.dropWhile_subset _ (List.drop_subset 1 _ h1)
            have hins : nulChar ∈ pyStrip ((pyStrip c).drop 7) :=
              shlexSplit_mem nulChar (by decide) _ parts hs part hpart hinpart
            have hcm : hasNul c = true := by
              simp only [hasNul, decide_eq_true_eq]
              exact pyStrip_subset c (List.drop_subset 7 _ (pyStrip_subset _ hins))
            rw [hcm] at hc
            exact Bool.noConfusion hc
  · rw [if_neg hexp] at h
    by_cases huns : "unset ".data.isPrefixOf (pyStrip c) = true
    · rw [if_pos huns] at h
      by_cases hkey : pyStrip ((pyStrip c).drop 6) = []
      · rw [if_pos hkey] at h
        injection h with h
        obtain ⟨rfl, -⟩ := Prod.mk.injEq .. |>.mp h
        exact henv
      · rw [if_neg hkey] at h
        injection h with h
        obtain ⟨rfl, -⟩ := Prod.mk.injEq .. |>.mp h
        simp only [envHasNul, decide_eq_false_iff_not] at henv ⊢
        rintro ⟨kv, hkv, hnul⟩
        exact henv ⟨kv, List.mem_of_mem_filter hkv, hnul⟩
    · rw [if_neg huns] at h
      injection h with h
      obtain ⟨rfl, -⟩ := Prod.mk.injEq .. |>.mp h
      exact henv

/-- The only exception `change_dir` raises is `embedded null byte`, and only
when the target text or the current directory carries a NUL. -/
theorem change_dirChecked_error (fs : FS) (sess : ShellSession) (target : List Char)
    (e : List Char) (h : (change_dirChecked fs sess target).2 = .error e) :
    e = nulErr ∧ (hasNul target = true ∨ pathHasNul sess.cwd = true) := by
  unfold change_dirChecked at h
  dsimp only at h
  by_cases hnul : pathHasNul (if startsWithSlash target then parsePath target
      else sess.cwd ++ parsePath target) = true
  · rw [if_pos hnul] at h
    injection h with h2
    refine ⟨h2.symm, ?_⟩
    by_cases hsl : startsWithSlash target = true
    · rw [if_pos hsl] at hnul
      exact Or.inl (pathHasNul_parsePath target hnul)
    · rw [if_neg hsl] at hnul
      rw [pathHasNul_append] at hnul
      rcases Bool.or_eq_true .. |>.mp hnul with h1 | h1
      · exact Or.inr h1
      · exact Or.inl (pathHasNul_parsePath target h1)
  · rw [if_neg hnul] at h
    split at h <;> split at h <;> exact Except.noConfusion h

theorem sourceFilePath_error (sess : ShellSession) (sp e : List Char)
    (h : sourceFilePath sess sp = .error e) :
    e = nulErr ∧ (hasNul sp = true ∨ pathHasNul sess.cwd = true) := by
  unfold sourceFilePath at h
  dsimp only at h
  by_cases hsl : startsWithSlash sp = true
  · rw [if_pos hsl] at h
    exact Except.noConfusion h
  · rw [if_neg hsl] at h
    by_cases hnul : pathHasNul (sess.cwd ++ parsePath sp) = true
    · rw [if_pos hnul] at h
      injection h with h2
      refine ⟨h2.symm, ?_⟩
      rw [pathHasNul_append] at hnul
      rcases Bool.or_eq_true .. |>.mp hnul with h1 | h1
      · exact Or.inr h1
      · exact Or.inl (pathHasNul_parsePath sp h1)
    · rw [if_neg hnul] at h
      exact Except.noConfusion h

/-- The only exception `apply_source` raises is `embedded null byte`, and only
when the script path, the current directory or the environment carries a NUL. -/
theorem apply_sourceChecked_error (fs : FS) (w : SourceWorld) (sess : ShellSession)
    (sp e : List Char)
    (h : (apply_sourceChecked fs w sess sp).2 = .error e) :
    e = nulErr ∧ (hasNul sp = true ∨ pathHasNul sess.cwd = true
      ∨ envHasNul sess.env = true) := by
  unfold apply_sourceChecked at h
  cases hsf : sourceFilePath sess sp with
  | error e2 =>
      rw [hsf] at h
      dsimp only at h
      injection h with h2
      obtain ⟨h3, h4⟩ := sourceFilePath_error sess sp e2 hsf
      refine ⟨h2 ▸ h3, ?_⟩
      rcases h4 with h4 | h4
      · exact Or.inl h4
      · exact Or.inr (Or.inl h4)
  | ok file_path =>
      rw [hsf] at h
      dsimp only at h
      split at h
      · exact Except.noConfusion h
      · split at h
        · exact Except.noConfusion h
        · split at h
          · rename_i hcond
            injection h with h2
            refine ⟨h2.symm, ?_⟩
            rcases Bool.or_eq_true .. |>.mp hcond with h1 | h1
            · exact Or.inr (Or.inl h1)
            · exact Or.inr (Or.inr h1)
          · split at h
            · exact Except.noConfusion h
            · split at h <;> exact Except.noConfusion h

theorem ensureCwdChecked_root_eq (fs : FS) (w : RunWorld) (sess : ShellSession) :
    (ensureCwdChecked fs w sess).workspace_root = sess.workspace_root := by
  unfold ensureCwdChecked
  split <;> rfl

theorem ensureCwdChecked_env_eq (fs : FS) (w : RunWorld) (sess : ShellSession) :
    (ensureCwdChecked fs w sess).env = sess.env := by
  unfold ensureCwdChecked
  split <;> rfl

/-- The cwd pre-check replaces the cwd only by the workspace root or the
process cwd, so NUL-freeness of all three is preserved. -/
theorem ensureCwdChecked_cwd_nulFree (fs : FS) (w : RunWorld) (sess : ShellSession)
    (hroot : pathHasNul sess.workspace_root = false)
    (hcwd : pathHasNul sess.cwd = false)
    (hproc : pathHasNul w.processCwd = false) :
    pathHasNul (ensureCwdChecked fs w sess).cwd = false := by
  unfold ensureCwdChecked
  split
  · show pathHasNul (if fs.existsPathChecked sess.workspace_root then sess.workspace_root
      else w.processCwd) = false
    split
    · exact hroot
    · exact hproc
  · exact hcwd

/-- Claim C7 (corrected): `run` is not total.  It returns an
`(exitCode, stdout, stderr)` result for every command except (a) an `export`
whose argument text fails shell lexing — the `ValueError` of `shlex.split`
escapes — and (b) a command carrying a NUL byte into `Path.resolve()` (a `cd`
target, via the relative `source` path) or into `create_subprocess_shell`
(the fall-through command line, or an environment entry it just exported) —
`ValueError("embedded null byte")` escapes.  Formally: with NUL-free session
and process state, every exception escaping `run` is either the lex error of
the stripped command's `export` argument, or `embedded null byte` with the
command text itself containing a NUL. -/
theorem run_error_sources (fs : FS) (w : RunWorld) (sess s2 : ShellSession)
    (command : List Char) (timeout : Nat) (e : List Char)
    (hroot : pathHasNul sess.workspace_root = false)
    (hcwd : pathHasNul sess.cwd = false)
    (henv : envHasNul sess.env = false)
    (hproc : pathHasNul w.processCwd = false)
    (herr : ShellSession.runChecked fs w sess command timeout = (s2, .error e)) :
    ("export ".data.isPrefixOf (pyStrip command) = true ∧
      shlexSplit (pyStrip ((pyStrip command).drop 7)) = .error e) ∨
    (e = nulErr ∧ hasNul command = true) := by
  have hroot1 := ensureCwdChecked_root_eq fs w sess
  have henv1 := ensureCwdChecked_env_eq fs w sess
  have hcwd1 := ensureCwdChecked_cwd_nulFree fs w sess hroot hcwd hproc
  unfold ShellSession.runChecked at herr
  dsimp only at herr
  by_cases hc1 : "cd ".data.isPrefixOf (pyStrip command) = true ∨
      pyStrip command = "cd".data
  · rw [if_pos hc1] at herr
    by_cases hbare : pyStrip command = "cd".data
    · rw [if_pos hbare] at herr
      cases hr : (change_dirChecked fs (ensureCwdChecked fs w sess)
          (renderPath (ensureCwdChecked fs w sess).workspace_root)).2 with
      | error e2 =>
          obtain ⟨-, hsrc⟩ := change_dirChecked_error fs _ _ e2 hr
          rcases hsrc with h1 | h1
          · rw [hroot1, hasNul_renderPath sess.workspace_root hroot] at h1
            exact Bool.noConfusion h1
          · rw [hcwd1] at h1
            exact Bool.noConfusion h1
      | ok q =>
          rw [hr] at herr
          dsimp only at herr
          obtain ⟨-, h2⟩ := Prod.mk.injEq .. |>.mp herr
          exact Except.noConfusion h2
    · rw [if_neg hbare] at herr
      cases hr : (change_dirChecked fs (ensureCwdChecked fs w sess)
          (pyStrip ((pyStrip command).drop 3))).2 with
      | error e2 =>
          rw [hr] at herr
          dsimp only at herr
          obtain ⟨-, h2⟩ := Prod.mk.injEq .. |>.mp herr
          injection h2 with h3
          obtain ⟨he2, hsrc⟩ := change_dirChecked_error fs _ _ e2 hr
          rcases hsrc with h1 | h1
          · exact Or.inr ⟨h3 ▸ he2, hasNul_pyStrip_drop command 3 h1⟩
          · rw [hcwd1] at h1
            exact Bool.noConfusion h1
      | ok q =>
          rw [hr] at herr
          dsimp only at herr
          obtain ⟨-, h2⟩ := Prod.mk.injEq .. |>.mp herr
          exact Except.noConfusion h2
  · rw [if_neg hc1] at herr
    by_cases hc2 : "source ".data.isPrefixOf (pyStrip command) = true
    · rw [if_pos hc2] at herr
      cases hr : (apply_sourceChecked fs w.source (ensureCwdChecked fs w sess)
          (pyStrip ((pyStrip command).drop 7))).2 with
      | error e2 =>
          rw [hr] at herr
          dsimp only at herr
          obtain ⟨-, h2⟩ := Prod.mk.injEq .. |>.mp herr
          injection h2 with h3
          obtain ⟨he2, hsrc⟩ := apply_sourceChecked_error fs w.source _ _ e2 hr
          rcases hsrc with h1 | h1 | h1
          · exact Or.inr ⟨h3 ▸ he2, hasNul_pyStrip_drop command 7 h1⟩
          · rw [hcwd1] at h1
            exact Bool.noConfusion h1
          · rw [henv1, henv] at h1
            exact Bool.noConfusion h1
      | ok q =>
          rw [hr] at herr
          dsimp only at herr
          obtain ⟨-, h2⟩ := Prod.mk.injEq .. |>.mp herr
          exact Except.noConfusion h2
    · rw [if_neg hc2] at herr
      by_cases hc3 : ". ".data.isPrefixOf (pyStrip command) = true
      · rw [if_pos hc3] at herr
        cases hr : (apply_sourceChecked fs w.source (ensureCwdChecked fs w sess)
            (pyStrip ((pyStrip command).drop 2))).2 with
        | error e2 =>
            rw [hr] at herr
            dsimp only at herr
            obtain ⟨-, h2⟩ := Prod.mk.injEq .. |>.mp herr
            injection h2 with h3
            obtain ⟨he2, hsrc⟩ := apply_sourceChecked_error fs w.source _ _ e2 hr
            rcases hsrc with h1 | h1 | h1
            · exact Or.inr ⟨h3 ▸ he2, hasNul_pyStrip_drop command 2 h1⟩
            · rw [hcwd1] at h1
              exact Bool.noConfusion h1
            · rw [henv1, henv] at h1
              exact Bool.noConfusion h1
        | ok q =>
            rw [hr] at herr
            dsimp only at herr
            obtain ⟨-, h2⟩ := Prod.mk.injEq .. |>.mp herr
            exact Except.noConfusion h2
      · rw [if_neg hc3] at herr
        cases hm : apply_export_or_unset (ensureCwdChecked fs w sess).env
            (pyStrip command) with
        | error e2 =>
            rw [hm] at herr
            dsimp only at herr
            obtain ⟨-, h2⟩ := Prod.mk.injEq .. |>.mp herr
            injection h2 with h3
            obtain ⟨hpre, hlex⟩ := apply_export_error _ _ e2 hm
            rw [pyStrip_idem] at hpre hlex
            exact Or.inl ⟨hpre, h3 ▸ hlex⟩
        | ok p =>
            obtain ⟨env2, m⟩ := p
            cases m with
            | some msg =>
                rw [hm] at herr
                dsimp only at herr
                split at herr
                · obtain ⟨-, h2⟩ := Prod.mk.injEq .. |>.mp herr
                  exact Except.noConfusion h2
                · obtain ⟨-, h2⟩ := Prod.mk.injEq .. |>.mp herr
                  exact Except.noConfusion h2
            | none =>
                rw [hm] at herr
                dsimp only at herr
                split at herr
                · rename_i hcond
                  obtain ⟨-, h2⟩ := Prod.mk.injEq .. |>.mp herr
                  injection h2 with h3
                  by_cases hns : hasNul (pyStrip command) = true
                  · exact Or.inr ⟨h3.symm, hasNul_pyStrip command hns⟩
                  · have hns2 : hasNul (pyStrip command) = false := by
                      rwa [Bool.not_eq_true] at hns
                    have henvS : envHasNul (ensureCwdChecked fs w sess).env = false := by
                      rw [henv1]; exact henv
                    have henv2 : envHasNul env2 = false :=
                      apply_export_env_nulfree _ _ env2 none henvS hns2 hm
                    rcases Bool.or_eq_true .. |>.mp hcond with h4 | h4
                    · rcases Bool.or_eq_true .. |>.mp h4 with h5 | h5
                      · rw [hns2] at h5
                        exact Bool.noConfusion h5
                      · have h6 : pathHasNul (ensureCwdChecked fs w sess).cwd = true := h5
                        rw [hcwd1] at h6
                        exact Bool.noConfusion h6
                    · rw [henv2] at h4
                      exact Bool.noConfusion h4
                · cases hw : w.exec with
                  | none =>
                      rw [hw] at herr
                      dsimp only at herr
                      obtain ⟨-, h2⟩ := Prod.mk.injEq .. |>.mp herr
                      exact Except.noConfusion h2
                  | some t =>
                      obtain ⟨rc, out, err2⟩ := t
                      rw [hw] at herr
                      dsimp only at herr
                      obtain ⟨-, h2⟩ := Prod.mk.injEq .. |>.mp herr
                      exact Except.noConfusion h2

/-- Claim C7, counterexample to totality as claimed: an `export` with an
unbalanced quote escapes with the `shlex` lex error, and a NUL byte in a `cd`
target, in a plain command line, or in a value the same command just exported
escapes with `embedded null byte` — in the last case after the assignment has
already mutated the environment. -/
theorem run_raises_cex :
    (ShellSession.runChecked c7fs c7world c7sess "export A=\"1".data 5).2 =
      .error "No closing quotation".data ∧
    (ShellSession.runChecked c7fs c7world c7sess
      ("cd a".data ++ [nulChar] ++ "b".data) 5).2 = .error nulErr ∧
    (ShellSession.runChecked c7fs c7world c7sess
      ("echo a".data ++ [nulChar] ++ "b".data) 5).2 = .error nulErr ∧
    ShellSession.runChecked c7fs c7world c7sess
      ("export A=a".data ++ [nulChar] ++ "b".data) 5 =
      ({ c7sess with env := [("A".data, "a".data ++ [nulChar] ++ "b".data)] },
        .error nulErr) :=
  ⟨rfl, rfl, rfl, rfl⟩

theorem run_error_sources_witness :
    pathHasNul c7sess.workspace_root = false ∧
    pathHasNul c7sess.cwd = false ∧
    envHasNul c7sess.env = false ∧
    pathHasNul c7world.processCwd = false ∧
    (("export ".data.isPrefixOf (pyStrip "export A=\"1".data) = true ∧
        shlexSplit (pyStrip ((pyStrip "export A=\"1".data).drop 7)) =
          .error "No closing quotation".data) ∨
      ("No closing quotation".data = nulErr ∧ hasNul "export A=\"1".data = true)) :=
  ⟨by decide, by decide, by decide, by decide,
    run_error_sources c7fs c7world c7sess c7sess "export A=\"1".data 5
      "No closing quotation".data (by decide) (by decide) (by decide) (by decide) rfl⟩

/-! ## Keystroke injection (src/bot/tmux_bridge.py, `send_keys`; claim C5) -/

/-- The code points Python `str.splitlines` treats as line boundaries. -/
def lineBreakCodes : List Nat := [10, 11, 12, 13, 28, 29, 30, 133, 8232, 8233]

def isLineBreak (c : Char) : Bool := lineBreakCodes.contains c.toNat

/-- Python `str.splitlines()` (keepends = False); `\r\n` counts as one break.
`afterCR` records that the previous character was a `\r` whose line was already
emitted, so a directly following `\n` is swallowed. -/
def splitlinesAux : Bool → List Char → List Char → List (List Char)
  | _, acc, [] => if acc = [] then [] else [acc.reverse]
  | afterCR, acc, c :: rest =>
      if afterCR && c = '\n' then splitlinesAux false acc rest
      else if c = '\r' then acc.reverse :: splitlinesAux true [] rest
      else if isLineBreak c then acc.reverse :: splitlinesAux false [] rest
      else splitlinesAux false (c :: acc) rest

def splitlines (s : List Char) : List (List Char) := splitlinesAux false [] s

/-- One `tmux send-keys` invocation, as the pane sees it. -/
inductive Keystroke
  | key (s : List Char)
  | ctrlJ
  | enter
deriving DecidableEq, Repr

/-- The `for part in text.splitlines()` loop of `send_keys`: each line is sent,
each followed by a literal-newline `C-j` keystroke. -/
def sendKeysLoop : List (List Char) → List Keystroke
  | [] => []
  | part :: rest => Keystroke.key part :: Keystroke.ctrlJ :: sendKeysLoop rest

/-- `TmuxBridge.send_keys(text, send_enter)`: the keystroke sequence injected
into the pane (each tmux call modelled as succeeding). -/
def send_keys (text : List Char) (send_enter : Bool) : List Keystroke :=
  sendKeysLoop (splitlines text) ++ (if send_enter then [Keystroke.enter] else [])

/-- Modelled from the claim's words (C5): the N lines in order with a literal
newline keystroke only for each line *after the first* (N-1 newlines, none
after the last line), then Enter iff submit. -/
def sendKeysClaimed (text : List Char) (submit : Bool) : List Keystroke :=
  (match splitlines text with
   | [] => []
   | l :: ls =>
      Keystroke.key l :: ls.foldr (fun p acc => Keystroke.ctrlJ :: Keystroke.key p :: acc) [])
  ++ (if submit then [Keystroke.enter] else [])

/-- Counterexample to C5 as stated: for the single-line text `"a"` with submit
off, the code injects a trailing `C-j` newline after the (last and only) line;
the claimed sequence has none. -/
theorem send_keys_cex :
    send_keys "a".data false = [Keystroke.key "a".data, Keystroke.ctrlJ] ∧
    sendKeysClaimed "a".data false = [Keystroke.key "a".data] ∧
    send_keys "a".data false ≠ sendKeysClaimed "a".data false := by
  refine ⟨rfl, rfl, ?_⟩
  decide

theorem sendKeysLoop_eq_bind (ls : List (List Char)) :
    sendKeysLoop ls = ls.flatMap (fun p => [Keystroke.key p, Keystroke.ctrlJ]) := by
  induction ls with
  | nil => rfl
  | cons p rest ih => simp [sendKeysLoop, ih]

theorem count_ctrlJ_sendKeysLoop (ls : List (List Char)) :
    (sendKeysLoop ls).count Keystroke.ctrlJ = ls.length := by
  induction ls with
  | nil => rfl
  | cons p rest ih => simp [sendKeysLoop, List.count_cons, ih]

theorem count_enter_sendKeysLoop (ls : List (List Char)) :
    (sendKeysLoop ls).count Keystroke.enter = 0 := by
  induction ls with
  | nil => rfl
  | cons p rest ih => simp [sendKeysLoop, List.count_cons, ih]

/-- **C5 (amended).** `send_keys` injects, for each of the N lines of the text
in order, the line followed by one literal-newline keystroke — N newline
keystrokes, one after every line *including the last* — and then exactly one
final Enter keystroke iff submit is set. -/
theorem send_keys_spec (text : List Char) (submit : Bool) :
    send_keys text submit
      = (splitlines text).flatMap (fun p => [Keystroke.key p, Keystroke.ctrlJ])
        ++ (if submit then [Keystroke.enter] else []) ∧
    (send_keys text submit).count Keystroke.ctrlJ = (splitlines text).length ∧
    (send_keys text submit).count Keystroke.enter = (if submit then 1 else 0) := by
  refine ⟨by rw [send_keys, sendKeysLoop_eq_bind], ?_, ?_⟩
  · rw [send_keys, List.count_append, count_ctrlJ_sendKeysLoop]
    cases submit <;> simp
  · rw [send_keys, List.count_append, count_enter_sendKeysLoop]
    cases submit <;> simp

/-! ## Idle-wait loop (src/bot/tmux_bridge.py, `send_and_wait_idle`; claims C6, C2)

Per the spec's design note, the poll loop is modelled with an injected clock:
each `IdleSample` is one loop iteration, carrying the clock value read by the
loop guard and the capture taken in that iteration.  A finite sample list whose
times eventually pass the deadline determines the whole run; exhausting the
list models the deadline passing. -/

/-- Python `pat in t` for strings: `pat` occurs as a contiguous substring. -/
def isSubstr (pat : List Char) : List Char → Bool
  | [] => decide (pat = [])
  | c :: rest => pat.isPrefixOf (c :: rest) || isSubstr pat rest

/-- `TmuxBridge._looks_working(text)`: lowercased text contains
`esc to interrupt` or `working (`. -/
def looksWorking (text : List Char) : Bool :=
  let t := text.map Char.toLower
  isSubstr "esc to interrupt".data t || isSubstr "working (".data t

structure IdleSample where
  time : Nat
  capture : List Char
deriving DecidableEq, Repr

/-- The poll loop of `send_and_wait_idle`, mirroring the source: on each
iteration, if the clock is still before the deadline, take the capture; a
capture identical to the previous one and not busy-classified bumps the
counter, anything else resets it; exit once the counter reaches 3, else
continue; return `last` on every exit. -/
def idleLoop (deadline : Nat) (last : List Char) (stable : Nat) :
    List IdleSample → List Char
  | [] => last
  | s :: rest =>
      if s.time < deadline then
        let cur := s.capture
        let p : List Char × Nat :=
          if cur = last then
            (if looksWorking cur then (last, 0) else (last, stable + 1))
          else (cur, 0)
        if p.2 ≥ 3 then p.1 else idleLoop deadline p.1 p.2 rest
      else last

/-- The claim's counter rule: increment exactly when the new capture is
byte-identical to the previous sample and not classified busy; reset to zero
otherwise. -/
def stepCounter (prevSample : List Char) (counter : Nat) (cur : List Char) : Nat :=
  if cur = prevSample ∧ looksWorking cur = false then counter + 1 else 0

/-- The loop as the claim describes it: exit with the last capture as soon as
the counter reaches the threshold 3, or once the deadline passes. -/
def idleLoopSpec (deadline : Nat) (last : List Char) (counter : Nat) :
    List IdleSample → List Char
  | [] => last
  | s :: rest =>
      if deadline ≤ s.time then last
      else if 3 ≤ stepCounter last counter s.capture then s.capture
      else idleLoopSpec deadline s.capture (stepCounter last counter s.capture) rest

theorem idleLoop_eq_spec (deadline : Nat) (samples : List IdleSample)
    (last : List Char) (stable : Nat) :
    idleLoop deadline last stable samples = idleLoopSpec deadline last stable samples := by
  induction samples generalizing last stable with
  | nil => rfl
  | cons s rest ih =>
      by_cases ht : s.time < deadline
      · have ht' : ¬ deadline ≤ s.time := by omega
        by_cases hw : looksWorking s.capture = true
        · by_cases hc : s.capture = last
          · have hwl : looksWorking last = true := hc ▸ hw
            simp [idleLoop, idleLoopSpec, stepCounter, ht, ht', hc, hwl, ih]
          · simp [idleLoop, idleLoopSpec, stepCounter, ht, ht', hc, ih]
        · have hw' : looksWorking s.capture = false := by simpa using hw
          by_cases hc : s.capture = last
          · have hwl : looksWorking last = false := hc ▸ hw'
            by_cases h3 : 3 ≤ stable + 1
            · simp [idleLoop, idleLoopSpec, stepCounter, ht, ht', hc, hwl, h3]
            · simp [idleLoop, idleLoopSpec, stepCounter, ht, ht', hc, hwl, h3, ih]
          · simp [idleLoop, idleLoopSpec, stepCounter, ht, ht', hc, ih]
      · have ht' : deadline ≤ s.time := by omega
        simp [idleLoop, idleLoopSpec, ht, ht']

/-- **C6.** Idle-wait loop discipline: the code's loop equals the claim's
formulation — after each sample the consecutive-stable counter becomes
`counter + 1` exactly when the capture is byte-identical to the previous sample
and not busy-classified, and `0` otherwise (`stepCounter`); the loop exits
early exactly when the counter reaches the threshold 3 (independently of any
later samples, returning the last capture, which that sample repeated), and
exits returning the last capture when the deadline has passed. -/
theorem idle_wait_discipline (deadline : Nat) (samples : List IdleSample)
    (last : List Char) (stable : Nat) :
    idleLoop deadline last stable samples = idleLoopSpec deadline last stable samples ∧
    (∀ prevSample counter cur,
        (cur = prevSample ∧ looksWorking cur = false →
          stepCounter prevSample counter cur = counter + 1) ∧
        (cur ≠ prevSample ∨ looksWorking cur = true →
          stepCounter prevSample counter cur = 0)) ∧
    (∀ s rest, s.time < deadline → 3 ≤ stepCounter last stable s.capture →
        idleLoop deadline last stable (s :: rest) = s.capture ∧ s.capture = last) ∧
    (∀ s rest, deadline ≤ s.time → idleLoop deadline last stable (s :: rest) = last) := by
  refine ⟨idleLoop_eq_spec deadline samples last stable, ?_, ?_, ?_⟩
  · intro prevSample counter cur
    constructor
    · intro h
      have h2 : looksWorking prevSample = false := h.1 ▸ h.2
      simp [stepCounter, h.1, h2]
    · intro h
      unfold stepCounter
      rw [if_neg]
      rcases h with h | h
      · exact fun hand => h hand.1
      · exact fun hand => by rw [hand.2] at h; exact Bool.false_ne_true h
  · intro s rest ht h3
    have hcond : s.capture = last ∧ looksWorking s.capture = false := by
      by_contra hn
      rw [stepCounter, if_neg hn] at h3
      omega
    have hlw : looksWorking last = false := hcond.1 ▸ hcond.2
    have hst : stepCounter last stable s.capture = stable + 1 := by
      simp [stepCounter, hcond.1, hlw]
    rw [hst] at h3
    refine ⟨?_, hcond.1⟩
    simp [idleLoop, ht, hcond.1, hlw, h3]
  · intro s rest ht
    have ht' : ¬ s.time < deadline := by omega
    simp [idleLoop, ht']

theorem idle_wait_discipline_witness :
    (idleLoop 10 "a".data 0 [⟨1, "a".data⟩] = idleLoopSpec 10 "a".data 0 [⟨1, "a".data⟩]) ∧
    stepCounter "a".data 1 "a".data = 2 ∧
    stepCounter "a".data 1 "b".data = 0 ∧
    (idleLoop 10 "a".data 2 [⟨1, "a".data⟩, ⟨99, "zzz".data⟩] = "a".data ∧
      "a".data = "a".data) ∧
    idleLoop 10 "b".data 0 [⟨12, "c".data⟩] = "b".data :=
  ⟨(idle_wait_discipline 10 [⟨1, "a".data⟩] "a".data 0).1,
   ((idle_wait_discipline 10 [] "a".data 0).2.1 "a".data 1 "a".data).1
     ⟨rfl, by decide⟩,
   ((idle_wait_discipline 10 [] "a".data 0).2.1 "a".data 1 "b".data).2
     (Or.inl (by decide)),
   (idle_wait_discipline 10 [] "a".data 2).2.2.1 ⟨1, "a".data⟩ [⟨99, "zzz".data⟩]
     (by decide) (by decide),
   (idle_wait_discipline 10 [] "b".data 0).2.2.2 ⟨12, "c".data⟩ [] (by decide)⟩

/-! ## First-turn baseline of `send_and_wait_idle` (claim C2) -/

structure TmuxResult where
  snapshot : List Char
  increment : List Char
deriving DecidableEq, Repr

/-- External observations of one `send_and_wait_idle` call: the step-1 seeding
capture (`none` models that `capture()` raised), the capture taken right after
the send, and the poll-loop samples. -/
structure IdleWorld where
  seedCapture : Option (List Char)
  firstCapture : List Char
  samples : List IdleSample
deriving Repr

/-- `TmuxBridge.send_and_wait_idle(text, prev_snapshot, timeout)`: when
`prev_snapshot` is empty it is seeded from one pre-send capture (empty if that
raised); the keystrokes are sent with submit; the poll loop runs; the result
pairs the final capture with its overlap diff against the baseline. -/
def send_and_wait_idle (text prevSnapshot : List Char) (w : IdleWorld)
    (deadline : Nat) : List Keystroke × TmuxResult :=
  let prev := if prevSnapshot = [] then w.seedCapture.getD [] else prevSnapshot
  let keys := send_keys text true
  let last := idleLoop deadline w.firstCapture 0 w.samples
  (keys, { snapshot := last, increment := increment prev last })

/-- Counterexample to C2 as stated: a first turn (empty `lastSnapshot`) whose
pre-send seeding capture already reads `"hello\n"` and whose final capture is
`"hello\n"` yields an *empty* increment, not the whole final captured text —
the diff does not run on an empty baseline. -/
theorem first_turn_baseline_cex :
    ((send_and_wait_idle "hi".data []
        { seedCapture := some "hello\n".data, firstCapture := "hello\n".data,
          samples := [] } 30).2).snapshot = "hello\n".data ∧
    ((send_and_wait_idle "hi".data []
        { seedCapture := some "hello\n".data, firstCapture := "hello\n".data,
          samples := [] } 30).2).increment = [] ∧
    ([] : List Char) ≠ "hello\n".data :=
  ⟨rfl, rfl, by decide⟩

/-- **C2 (amended).** On a turn that starts with an empty `lastSnapshot`, the
diff baseline is the pre-send seeding capture, not the empty string: the
increment is the overlap diff of the final capture against that seed, and it
equals the whole final captured text exactly in the cases where the seed is
empty — the seeding capture raised or returned the empty string. -/
theorem first_turn_increment (text : List Char) (w : IdleWorld) (deadline : Nat) :
    (∀ seed, w.seedCapture = some seed →
      ((send_and_wait_idle text [] w deadline).2).increment
        = increment seed ((send_and_wait_idle text [] w deadline).2).snapshot) ∧
    (w.seedCapture = none ∨ w.seedCapture = some [] →
      ((send_and_wait_idle text [] w deadline).2).increment
        = ((send_and_wait_idle text [] w deadline).2).snapshot) := by
  constructor
  · intro seed hs
    unfold send_and_wait_idle
    dsimp only
    rw [hs]
    simp
  · intro hseed
    unfold send_and_wait_idle
    dsimp only
    rcases hseed with h | h <;> rw [h] <;> simp [increment]

theorem first_turn_increment_witness :
    ((send_and_wait_idle "hi".data []
        { seedCapture := none, firstCapture := "hello\n".data, samples := [] } 30).2).increment
      = ((send_and_wait_idle "hi".data []
        { seedCapture := none, firstCapture := "hello\n".data, samples := [] } 30).2).snapshot :=
  (first_turn_increment "hi".data
    { seedCapture := none, firstCapture := "hello\n".data, samples := [] } 30).2
    (Or.inl rfl)

/-! ## Session record round-trip (src/bot/bot.py, `Session.to_json` / `from_json`;
claim C10) -/

structure Settings where
  workspace_dir : PyPath
deriving Repr

/-- The fields of `bot.Session` its record covers (chat id and settings are
reattached on load). -/
structure PySession where
  mode : List Char
  shell : ShellSession
  term_target : Option (List Char)
  term_snapshot : List Char
deriving DecidableEq, Repr

/-- The JSON document `Session.to_json` writes. -/
structure SessionRecord where
  mode : List Char
  cwd : List Char
  env : Env
  term_target : Option (List Char)
  term_snapshot : List Char
deriving DecidableEq, Repr

def Session.to_json (s : PySession) : SessionRecord :=
  { mode := s.mode, cwd := renderPath s.shell.cwd, env := s.shell.env,
    term_target := s.term_target, term_snapshot := s.term_snapshot }

/-- `Session.from_json(chat_id, settings, data)`: a fresh session built from
`settings` is overwritten field by field; the recorded cwd is kept only if it
still exists, else the workspace root; `data.get("term_target") or None` turns
an empty-string target into `None`; `or ""` keeps the snapshot as it was.  (A
record produced by `to_json` always passes the `isinstance(env, dict)` check,
and `{str(k): str(v) ...}` is the identity on a string-to-string dict.) -/
def Session.from_json (fs : FS) (settings : Settings) (data : SessionRecord) : PySession :=
  let cwd := parsePath data.cwd
  { mode := data.mode,
    shell := { workspace_root := settings.workspace_dir,
               cwd := if fs.existsPath cwd then cwd else settings.workspace_dir,
               env := data.env },
    term_target := match data.term_target with
                   | some t => if t = [] then none else some t
                   | none => none,
    term_snapshot := data.term_snapshot }

/-- Concrete data for C10. -/
def c10fs : FS := { dirs := [["w0".data]], files := [] }

def c10settings : Settings := { workspace_dir := ["w0".data] }

def c10sessEmptyTarget : PySession :=
  { mode := "term".data,
    shell := { workspace_root := ["w0".data], cwd := ["w0".data], env := [] },
    term_target := some [], term_snapshot := [] }

/-- Counterexample to C10 as stated: a session whose working directory exists
and whose environment is string-to-string, but whose terminal target is the
empty string, is not reproduced exactly — `data.get("term_target") or None`
restores the target as unset. -/
theorem session_round_trip_cex :
    c10fs.existsPath c10sessEmptyTarget.shell.cwd = true ∧
    (Session.from_json c10fs c10settings
      (Session.to_json c10sessEmptyTarget)).term_target = none ∧
    c10sessEmptyTarget.term_target = some [] :=
  ⟨rfl, rfl, rfl⟩

/-- **C10 (amended).** Rebuilding a session from its serialized record
reproduces mode, working directory, environment, terminal target and last
snapshot exactly, provided the working directory still exists and the terminal
target is not the empty string (an empty-string target is restored as unset);
the workspace root is always the configured one.  If the recorded working
directory no longer exists, the rebuilt working directory is the configured
workspace root instead. -/
theorem session_round_trip (fs : FS) (settings : Settings) (s : PySession)
    (hvalid : validPath s.shell.cwd = true)
    (htarget : s.term_target ≠ some []) :
    (fs.existsPath s.shell.cwd = true →
      Session.from_json fs settings (Session.to_json s)
        = { mode := s.mode,
            shell := { workspace_root := settings.workspace_dir,
                       cwd := s.shell.cwd, env := s.shell.env },
            term_target := s.term_target,
            term_snapshot := s.term_snapshot }) ∧
    (fs.existsPath s.shell.cwd = false →
      (Session.from_json fs settings (Session.to_json s)).shell.cwd
        = settings.workspace_dir) := by
  have hcwd : parsePath (renderPath s.shell.cwd) = s.shell.cwd :=
    parsePath_renderPath _ hvalid
  have htt : (match s.term_target with
              | some t => if t = [] then none else some t
              | none => none) = s.term_target := by
    cases ht : s.term_target with
    | none => rfl
    | some t =>
        have hne : t ≠ [] := fun h => htarget (by rw [ht, h])
        simp [hne]
  constructor
  · intro hex
    unfold Session.from_json Session.to_json
    dsimp only
    rw [hcwd, if_pos hex, htt]
  · intro hex
    unfold Session.from_json Session.to_json
    dsimp only
    rw [hcwd, if_neg (by simp [hex])]

def c10sess : PySession :=
  { mode := "term".data,
    shell := { workspace_root := ["w0".data], cwd := ["w0".data],
               env := [("K".data, "V".data)] },
    term_target := some "proj:1.0".data, term_snapshot := "hello\n".data }

theorem session_round_trip_witness :
    Session.from_json c10fs c10settings (Session.to_json c10sess)
      = { mode := c10sess.mode,
          shell := { workspace_root := c10settings.workspace_dir,
                     cwd := c10sess.shell.cwd, env := c10sess.shell.env },
          term_target := c10sess.term_target,
          term_snapshot := c10sess.term_snapshot } :=
  (session_round_trip c10fs c10settings c10sess (by decide) (by decide)).1 rfl

end DevGram
